import Mathlib

/-!
Verification of the Maps geocoding validation pipeline
(`geocodingweb/bin`: `readers.py`, `data_test.py`, `geocoding_data_tests.py`).

The Python sources are shallowly embedded below.  Pure record processing is
translated into Lean functions over explicit record structures; Python
`for`-loops become `List.foldl` / `List.foldlM`, Python dictionaries become
association lists with first-match lookup (matching insertion order), and
Python exceptions become `Except String`.

The geometry engine (shapely) and the bounding-box spatial index (rtree) are
external collaborators of the repository; their predicates are modelled from
the spec's interface description over a concrete universe of axis-aligned
rectangles with integer coordinates, which is rich enough to exhibit strict
interior intersection, pure boundary touching, disjointness, degenerate
(invalid) shapes and topology errors.
-/

namespace GeoMaps

/-- An axis-aligned rectangle with integer coordinates: the concrete polygon
universe used to model shapely geometries.  `(x0, y0)` is the lower-left
corner and `(x1, y1)` the upper-right corner; as a bounding box it is the
closed box `[x0, x1] × [y0, y1]`. -/
structure Rect where
  x0 : Int
  y0 : Int
  x1 : Int
  y1 : Int
deriving DecidableEq, Repr

/-- A member of a feature's `GeometryCollection`: either a `Point` or a
`Polygon`/`MultiPolygon` (collapsed to one constructor, since every use in
the sources tests `geom['type'] in ('MultiPolygon', 'Polygon')`). -/
inductive Geom where
  | point (x y : Int)
  | poly (r : Rect)
deriving DecidableEq, Repr

/-- Modelled from the spec: the simple-feature validity predicate of the
external geometry engine (shapely `is_valid`).  Per the spec, "a closed,
non-self-intersecting, positive-area polygon passes" while degenerate shapes
are invalid; in the rectangle universe validity is exactly positive area. -/
def Rect.is_valid (r : Rect) : Bool :=
  r.x0 < r.x1 && r.y0 < r.y1

/-- Modelled from the spec: intersection of the closed bounding boxes of two
rectangles, the predicate of the rtree bounding-box index ("query the index
for all polygons whose bounding boxes intersect it"). -/
def bboxIntersects (a b : Rect) : Bool :=
  a.x0 ≤ b.x1 && b.x0 ≤ a.x1 && a.y0 ≤ b.y1 && b.y0 ≤ a.y1

/-- Strict intersection of the open interiors of two rectangles. -/
def interiorsIntersect (a b : Rect) : Bool :=
  max a.x0 b.x0 < min a.x1 b.x1 && max a.y0 b.y0 < min a.y1 b.y1

/-- Modelled from the spec: the geometry engine's overlap predicate
(shapely `overlaps` as used by the overlap check): "boundary-touching does
not count as overlap; strict interior intersection does".  Evaluating the
predicate on degenerate/invalid input raises a topology error (spec
glossary: "Topology fault"), modelled as `.error`. -/
def overlapsE (a b : Rect) : Except String Bool :=
  if a.is_valid && b.is_valid then .ok (interiorsIntersect a b)
  else .error "TopologicalError"

/-- Modelled from the spec: the geometry engine's point-within-polygon
predicate (shapely `within`): true when the point lies strictly inside the
polygon; raises a topology error on degenerate/invalid polygons. -/
def withinE (p : Int × Int) (r : Rect) : Except String Bool :=
  if r.is_valid then
    .ok (r.x0 < p.1 && p.1 < r.x1 && r.y0 < p.2 && p.2 < r.y1)
  else .error "TopologicalError"

/-- The properties block of an assembled feature record, restricted to the
fields the spatial checks read (`readers.py` emits them all). -/
structure Props where
  id : Int
  map_code : Int
  fclass : Int
  parent_id : Option Int
deriving DecidableEq, Repr

/-- An assembled GeoJSON-like feature record as emitted by the readers.
`geometry = none` models a record without a `'geometry'` key (possible for
CSV header rows with no matching `LocalData` row); when present it holds the
`geometries` list of the `GeometryCollection`. -/
structure Record where
  properties : Props
  geometry : Option (List Geom)
deriving DecidableEq, Repr

/-- `_get_comp_primary_key`: `str(id) + "_" + str(map_code)`. -/
def compKey (r : Record) : String :=
  toString r.properties.id ++ "_" ++ toString r.properties.map_code

/-- `record['geometry']['geometries']`: raises `KeyError` when the record has
no `'geometry'` key. -/
def exceptGeoms (r : Record) : Except String (List Geom) :=
  match r.geometry with
  | some geoms => .ok geoms
  | none => .error "KeyError: geometry"

/-- `TestGeometries._get_Polygon` (`data_test.py`): the loop body returns on
its very first iteration — `shape(geom)` if the first geometry is a polygon,
otherwise `None`; an absent `'geometry'` key or an empty list also yields
`None`. -/
def get_Polygon (r : Record) : Option Rect :=
  match r.geometry with
  | some geoms =>
    match geoms with
    | [] => none
    | g :: _ =>
      match g with
      | .poly rect => some rect
      | _ => none
  | none => none

/-- The scan of a `GeometryCollection` performed by the point-in-polygon
checks: one pass over the geometries assigning `pt_geom` on every `Point`
and `poly_geom` on every `Polygon`/`MultiPolygon` (so the last occurrence of
each wins). -/
def findPtPoly (geoms : List Geom) : Option (Int × Int) × Option Rect :=
  geoms.foldl
    (fun acc g =>
      match g with
      | .point x y => (some (x, y), acc.2)
      | .poly r => (acc.1, some r))
    (none, none)

/-- `TestGeometries.test_invalidShape` (`data_test.py`): for each record,
fetch `_get_Polygon` and append the compound key when the polygon is present
and invalid. -/
def test_invalidShape (records : List Record) : List String :=
  records.foldl
    (fun acc r =>
      match get_Polygon r with
      | some p => if !p.is_valid then acc ++ [compKey r] else acc
      | none => acc)
    []

/-- `TestGeometries.test_PointInPolygonGeom` (`data_test.py`): for each
record, read `record['geometry']['geometries']` (raising `KeyError` when the
geometry entry is absent), scan for point and polygon members, and when both
are present evaluate `within`; a topology error is swallowed (`continue`),
a `false` verdict appends the compound key. -/
def test_PointInPolygonGeom (records : List Record) : Except String (List String) :=
  records.foldlM
    (fun acc r => do
      let geoms ← exceptGeoms r
      match findPtPoly geoms with
      | (some pt, some pl) =>
        match withinE pt pl with
        | .error _ => pure acc
        | .ok true => pure acc
        | .ok false => pure (acc ++ [compKey r])
      | _ => pure acc)
    []

/-- Python dictionary assignment `d[k] = v` on an association list: replace
the value at an existing key in place, otherwise append the new binding. -/
def dictSet {α : Type} (d : List (String × α)) (k : String) (v : α) :
    List (String × α) :=
  if d.any (fun p => p.1 = k) then
    d.map (fun p => if p.1 = k then (k, v) else p)
  else d ++ [(k, v)]

/-- `GeoCodingTest.test_PointInPolygon` (`geocoding_data_tests.py`): same
scan as the offline variant, but violations go into a dictionary mapping the
compound key to the record's geometries. -/
def online_test_PointInPolygon (records : List Record) :
    Except String (List (String × List Geom)) :=
  records.foldlM
    (fun acc r => do
      let geoms ← exceptGeoms r
      match findPtPoly geoms with
      | (some pt, some pl) =>
        match withinE pt pl with
        | .error _ => pure acc
        | .ok true => pure acc
        | .ok false => pure (dictSet acc (compKey r) geoms)
      | _ => pure acc)
    []

/-- `GeoCodingTest.test_invalidShape` (`geocoding_data_tests.py`): reads
`record['geometry']['geometries']` unconditionally (raising `KeyError` when
absent), then proceeds like the offline variant but stores the first record
seen per plain `id` into a dictionary. -/
def online_test_invalidShape (records : List Record) :
    Except String (List (Int × Record)) :=
  records.foldlM
    (fun acc r => do
      let _geoms ← exceptGeoms r
      match get_Polygon r with
      | some p =>
        if !p.is_valid then
          if acc.any (fun q => q.1 = r.properties.id) then pure acc
          else pure (acc ++ [(r.properties.id, r)])
        else pure acc
      | none => pure acc)
    []

/-- One entry of the `polygon_shapes` list built by the offline overlap check
(`data_test.py`): the record's `id`, `class` and `map_code` together with one
polygon geometry found in its collection.  The list position of an entry is
also its rtree index (`count`). -/
structure PolyEntry where
  pid : Int
  fclass : Int
  map_code : Int
  polygon : Rect
deriving DecidableEq, Repr

/-- The indexing pass of `test_overlappingPolygons`: for each record carrying
a `'geometry'` key, append one `PolyEntry` per polygon member, in order. -/
def buildPolygonShapes (records : List Record) : List PolyEntry :=
  records.foldl
    (fun acc r =>
      match r.geometry with
      | none => acc
      | some geoms =>
        acc ++ geoms.filterMap
          (fun g =>
            match g with
            | .poly rect =>
              some ⟨r.properties.id, r.properties.fclass, r.properties.map_code, rect⟩
            | _ => none))
    []

/-- The composite key string of a `polygon_shapes` entry:
`str(id) + '_' + str(map_code)`. -/
def entryKey (e : PolyEntry) : String :=
  toString e.pid ++ "_" ++ toString e.map_code

/-- `idx.intersection(data['polygon'].bounds)` resolved through
`polygon_shapes[key]`: the entries whose stored bounding box intersects the
query bounding box, in index order. -/
def idxCandidates (shapes : List PolyEntry) (b : Rect) : List PolyEntry :=
  shapes.filter (fun e => bboxIntersects e.polygon b)

/-- The candidate-pair guard of the overlap checks: same `map_code`, same
`class`, and the indexed polygon not geometry-identical to the outer one. -/
def overlapGuard (data e : PolyEntry) : Bool :=
  e.map_code == data.map_code && e.fclass == data.fclass
    && !(e.polygon == data.polygon)

/-- The body of the inner loop of the offline overlap check
(`data_test.py` `test_overlappingPolygons`): `data` is the outer-loop
polygon, `e` the indexed candidate `polygon_shapes[key]`, and the state is
`(features_with_overlapping_polygons, ids_with_topology_error)`.  On an
overlap verdict the pair string `feature_1 + ";" + feature_2` is appended
unless the reversed string is already present; a predicate exception
appends `(composite_keys, error_string)` to the topology-error list. -/
def overlapStep (data : PolyEntry)
    (acc : List String × List (String × String)) (e : PolyEntry) :
    List String × List (String × String) :=
  if overlapGuard data e then
    let f1 := entryKey e
    let f2 := entryKey data
    match overlapsE e.polygon data.polygon with
    | .error msg => (acc.1, acc.2 ++ [(f1 ++ ";" ++ f2, msg)])
    | .ok true =>
      if (f2 ++ ";" ++ f1) ∈ acc.1 then acc
      else (acc.1 ++ [f1 ++ ";" ++ f2], acc.2)
    | .ok false => acc
  else acc

/-- `TestGeometries.test_overlappingPolygons` (`data_test.py`): build the
bounding-box index over every polygon, then for each polygon visit every
index candidate and run `overlapStep`.  Returns the violation list and the
topology-error list. -/
def test_overlappingPolygons (records : List Record) :
    List String × List (String × String) :=
  let shapes := buildPolygonShapes records
  shapes.foldl
    (fun acc data => (idxCandidates shapes data.polygon).foldl (overlapStep data) acc)
    ([], [])

/-- Proof-layer view of the offline overlap scan: one visit is an
(outer-loop polygon, indexed candidate) pair, and `overlapVisit` is
`overlapStep` uncurried over it. -/
def overlapVisit (acc : List String × List (String × String))
    (v : PolyEntry × PolyEntry) : List String × List (String × String) :=
  overlapStep v.1 acc v.2

/-- The list of visits the nested loops of the offline overlap check
perform, in order: for each outer polygon, its index candidates. -/
def visitsOf (shapes : List PolyEntry) : List (PolyEntry × PolyEntry) :=
  shapes.flatMap
    (fun d => (idxCandidates shapes d.polygon).map (fun e => (d, e)))

/-- The pair string a visit appends when it fires:
`feature_1 + ";" + feature_2` (indexed candidate's key first). -/
def visitEmit (v : PolyEntry × PolyEntry) : String :=
  entryKey v.2 ++ ";" ++ entryKey v.1

/-- The pair string a visit's dedup test looks up:
`feature_2 + ";" + feature_1` (the reversed direction). -/
def visitCheck (v : PolyEntry × PolyEntry) : String :=
  entryKey v.1 ++ ";" ++ entryKey v.2

/-- An element of the online overlap report's `geometries` payload: either a
single geometry or a whole geometry list (line 207 of
`geocoding_data_tests.py` appends `data['geoms']`, a list, as one element). -/
inductive GItem where
  | g (geo : Geom)
  | gs (l : List Geom)
deriving DecidableEq, Repr

/-- The intended per-pair payload of the online overlap report. -/
structure OverlapPayload where
  gtype : String
  geometries : List GItem
deriving DecidableEq, Repr

/-- One entry of the `polygon_shapes` list of the online overlap check
(`geocoding_data_tests.py`), which additionally stores the record's whole
`geoms` list. -/
structure OnlineEntry where
  pid : Int
  fclass : Int
  map_code : Int
  polygon : Rect
  geoms : List Geom
deriving DecidableEq, Repr

/-- The indexing pass of the online `test_overlappingPolygons`. -/
def buildOnlineShapes (records : List Record) : List OnlineEntry :=
  records.foldl
    (fun acc r =>
      match r.geometry with
      | none => acc
      | some geoms =>
        acc ++ geoms.filterMap
          (fun g =>
            match g with
            | .poly rect =>
              some ⟨r.properties.id, r.properties.fclass, r.properties.map_code, rect, geoms⟩
            | _ => none))
    []

/-- Composite key of an online `polygon_shapes` entry. -/
def onlineEntryKey (e : OnlineEntry) : String :=
  toString e.pid ++ "_" ++ toString e.map_code

/-- Candidate-pair guard of the online overlap check. -/
def onlineGuard (data e : OnlineEntry) : Bool :=
  e.map_code == data.map_code && e.fclass == data.fclass
    && !(e.polygon == data.polygon)

/-- The body of the inner loop of `GeoCodingTest.test_overlappingPolygons`
(`geocoding_data_tests.py`).  The report is a dictionary; after the
`has_key(feature_2 + ";" + feature_1)` dedup test the code executes
`features[...][`type`] = "GeometryCollection"` on the pair key.  When that
key is absent from the dictionary the subscript raises `KeyError`, which the
surrounding `except Exception` catches, appending the pair to the
topology-error list instead; when the key were present, the code would store
the `GeometryCollection` payload of both entries' geometries. -/
def onlineOverlapStep (data : OnlineEntry)
    (acc : List (String × OverlapPayload) × List (String × String))
    (e : OnlineEntry) :
    List (String × OverlapPayload) × List (String × String) :=
  if onlineGuard data e then
    let f1 := onlineEntryKey e
    let f2 := onlineEntryKey data
    match overlapsE e.polygon data.polygon with
    | .error msg => (acc.1, acc.2 ++ [(f1 ++ ";" ++ f2, msg)])
    | .ok true =>
      if acc.1.any (fun p => p.1 = f2 ++ ";" ++ f1) then acc
      else
        match acc.1.lookup (f1 ++ ";" ++ f2) with
        | none => (acc.1, acc.2 ++ [(f1 ++ ";" ++ f2, "KeyError")])
        | some _ =>
          (dictSet acc.1 (f1 ++ ";" ++ f2)
            ⟨"GeometryCollection", e.geoms.map GItem.g ++ [GItem.gs data.geoms]⟩,
           acc.2)
    | .ok false => acc
  else acc

/-- `GeoCodingTest.test_overlappingPolygons` (`geocoding_data_tests.py`):
the interactive/online overlap check.  Returns the report dictionary
(pair key → `GeometryCollection` payload) and the topology-error list. -/
def online_test_overlappingPolygons (records : List Record) :
    List (String × OverlapPayload) × List (String × String) :=
  let shapes := buildOnlineShapes records
  shapes.foldl
    (fun acc data =>
      (shapes.filter (fun e => bboxIntersects e.polygon data.polygon)).foldl
        (onlineOverlapStep data) acc)
    ([], [])

/-- The id-indexing pass of `GeoCodingTest.__init__`
(`geocoding_data_tests.py` lines 60-70): build `self.id_indexed_record`,
keeping the first-seen record per compound key; a recurring key only prints
a failure message (collected here as the second component) and processing
continues.  The source's `has_key('properties')` guard is vacuous here:
every record emitted by either reader carries a `properties` block, which
the `Record` structure makes mandatory. -/
def build_id_indexed_record (test_data : List Record) :
    List (String × Record) × List String :=
  test_data.foldl
    (fun acc r =>
      let k := compKey r
      if acc.1.any (fun p => p.1 = k) then
        (acc.1,
         acc.2 ++ ["Record already exists with the compound primary key " ++ k])
      else (acc.1 ++ [(k, r)], acc.2))
    ([], [])

/-- A raw Postgres row restricted to its two key columns (`keys=(0, 1)`);
`none` models SQL `NULL`, `some ""` an empty string. -/
def PgKeyRow : Type := Option String × Option String

/-- `ReaderPostgres.validate_keys` (`readers.py`): raise `ValueError` when a
key field is `None` or empty; build `'_'.join(str(row[key]))` compound keys;
raise `ValueError` when any compound key occurs more than once (the
`Counter.most_common` test; on an empty input the `[0]` subscript raises
`IndexError`, though callers only pass non-empty data). -/
def pgKeyCell (table_name : String) (cell : Option String) : Except String String :=
  match cell with
  | none =>
    Except.error ("Record in table " ++ table_name ++ " has an un-populated key field")
  | some s =>
    if s = "" then
      Except.error ("Record in table " ++ table_name ++ " has an un-populated key field")
    else Except.ok s

/-- The compound key `'_'.join(str(row[key]) for key in keys)` of one row,
after the per-cell population check. -/
def pgRowKey (table_name : String) (row : PgKeyRow) : Except String String := do
  let a ← pgKeyCell table_name row.1
  let b ← pgKeyCell table_name row.2
  pure (a ++ "_" ++ b)

def validate_keys (in_data : List PgKeyRow) (table_name : String) :
    Except String (List PgKeyRow) := do
  let compound_keys ← in_data.mapM (pgRowKey table_name)
  if compound_keys = [] then
    Except.error "IndexError"
  else if compound_keys.Nodup then
    pure in_data
  else
    Except.error ("Duplicate keys found in " ++ table_name ++ " table of staging or production data")

/-- The per-table hash representation produced by
`ReaderPostgres.dataset_to_hash_map`: compound key → row for the four
one-to-one tables, compound key → row list for `synonyms`.  Row contents are
opaque to the merge, hence the type parameter. -/
structure GeoHash (ρ : Type) where
  features : List (String × ρ)
  names : List (String × ρ)
  points : List (String × ρ)
  polygons : List (String × ρ)
  synonyms : List (String × List ρ)
deriving DecidableEq

/-- The keys of an association list are pairwise distinct (a Python dict
always satisfies this). -/
abbrev NodupKeys {α : Type} (l : List (String × α)) : Prop :=
  (l.map Prod.fst).Nodup

/-- Python `dict.update(m)`: fold `dictSet` over the entries of `m`. -/
def dictUpdate {α : Type} (d m : List (String × α)) : List (String × α) :=
  m.foldl (fun acc p => dictSet acc p.1 p.2) d

/-- The synonym branch of `ReaderPostgres._apply_staging`: for each staging
entry, append its values to the production list for that key when the key
exists, otherwise insert the staging values as the entry. -/
def synApply {ρ : Type} (prod m : List (String × List ρ)) :
    List (String × List ρ) :=
  m.foldl
    (fun acc p =>
      match acc.lookup p.1 with
      | some pv => dictSet acc p.1 (pv ++ p.2)
      | none => acc ++ [p])
    prod

/-- `ReaderPostgres._apply_staging` (`readers.py`): overlay one staging hash
onto the production hash — `dict.update` (full replacement per key) for the
non-synonym tables, append-or-insert for `synonyms`. -/
def apply_staging {ρ : Type} (prod merge : GeoHash ρ) : GeoHash ρ :=
  { features := dictUpdate prod.features merge.features
    names := dictUpdate prod.names merge.names
    points := dictUpdate prod.points merge.points
    polygons := dictUpdate prod.polygons merge.polygons
    synonyms := synApply prod.synonyms merge.synonyms }

/-- The hash of an empty staging set: every logical table present with zero
rows (`dataset_to_hash_map` of a dataset whose five tables are all empty). -/
def emptyGeoHash (ρ : Type) : GeoHash ρ :=
  { features := [], names := [], points := [], polygons := [], synonyms := [] }

/-- A primary/header CSV row (e.g. `State.csv`), already split by the
`csv.DictReader`; `Name` is present for single-name classes and `FIPS`
carries the `(FIPS, ISO3166_2, ISO3166_3)` extra columns of `Country.csv`. -/
structure NamedRow where
  ID : Int
  MapCode : Int
  ParentID : String
  Name : Option String
  FIPS : Option (String × String × String)
deriving DecidableEq, Repr

/-- A `LocalData*.csv` geometry row: an optional polygon (the `Geometry`
column when present and not the literal `'None'`) and a mandatory
longitude/latitude point; keyed by `ParentID + '_' + MapCode` as raw
strings. -/
structure LocalRow where
  ParentID : String
  MapCode : String
  Geometry : Option Rect
  Longitude : Int
  Latitude : Int
deriving DecidableEq, Repr

/-- A `*Synonyms.csv` row, keyed by `ParentID + '_' + MapCode`. -/
structure SynRow where
  ParentID : String
  MapCode : String
  IsDisplayName : String
  Locale : String
  Name : String
deriving DecidableEq, Repr

/-- Compound key of a primary row: `record['ID'] + '_' + record['MapCode']`. -/
def namedKey (r : NamedRow) : String :=
  toString r.ID ++ "_" ++ toString r.MapCode

/-- Compound key of an auxiliary geometry row:
`record['ParentID'] + '_' + record['MapCode']`. -/
def localKey (r : LocalRow) : String :=
  r.ParentID ++ "_" ++ r.MapCode

/-- Compound key of a synonym row. -/
def synKey (r : SynRow) : String :=
  r.ParentID ++ "_" ++ r.MapCode

/-- `int(parent_id)` with the source's coercion: an empty string stays "no
parent" and an unparsable value resolves to `None` rather than raising. -/
def parseParent (s : String) : Option Int :=
  if s = "" then none else s.toInt?

/-- Properties of a CSV-assembled feature. -/
structure CsvProps where
  map_code : Int
  parent_id : Option Int
  id : Int
  fclass : Int
  none_name : Option String
  fips : Option String
  iso2 : Option String
  iso3 : Option String
  locales : List (String × String)
  synonyms : Option (List String)
deriving DecidableEq, Repr

/-- A CSV-assembled feature record (`type`, `properties`, optional
`geometry`). -/
structure CsvFeature where
  ftype : String
  properties : CsvProps
  geometry : Option (List Geom)
deriving DecidableEq, Repr

/-- The skeleton built for one primary row by
`ReaderLocalCSVs._records_for_class_to_geojson`. -/
def namedRowFeature (class_id : Int) (record : NamedRow) : CsvFeature :=
  { ftype := "feature"
    properties :=
      { map_code := record.MapCode
        parent_id := parseParent record.ParentID
        id := record.ID
        fclass := class_id
        none_name := record.Name
        fips := record.FIPS.map (fun t => t.1)
        iso2 := record.FIPS.map (fun t => t.2.1)
        iso3 := record.FIPS.map (fun t => t.2.2)
        locales := []
        synonyms := none }
    geometry := none }

/-- Phase 1 of `ReaderLocalCSVs._records_for_class_to_geojson`: seed one
skeleton per primary row into `geojson_output`; a recurring compound key
silently replaces the earlier skeleton (plain dict assignment). -/
def csvSeedPhase (class_id : Int) (named : List NamedRow) :
    List (String × CsvFeature) :=
  named.foldl
    (fun acc record =>
      dictSet acc (namedKey record) (namedRowFeature class_id record))
    []

/-- The `GeometryCollection` built for one `LocalData` row: the optional
polygon first, then the mandatory point. -/
def localRowGeoms (record : LocalRow) : List Geom :=
  (match record.Geometry with
   | some p => [Geom.poly p]
   | none => []) ++ [Geom.point record.Longitude record.Latitude]

/-- Phase 2: attach geometry from the `LocalData` rows.  The subscript
`geojson_output[record['compound_key']]` raises `KeyError` when no primary
row seeded that key. -/
def csvLocalPhase (localRows : List LocalRow)
    (acc0 : List (String × CsvFeature)) :
    Except String (List (String × CsvFeature)) :=
  localRows.foldlM
    (fun acc record =>
      match acc.lookup (localKey record) with
      | none => Except.error ("KeyError: " ++ localKey record)
      | some feat =>
        pure (dictSet acc (localKey record)
          { feat with geometry := some (localRowGeoms record) }))
    acc0

/-- The property update a synonym row applies to its feature:
`IsDisplayName == '1'` assigns the lower-cased locale, otherwise the name is
appended to the `synonyms` sequence (created on first use). -/
def synRowApply (record : SynRow) (feat : CsvFeature) : CsvFeature :=
  if record.IsDisplayName = "1" then
    { feat with properties :=
        { feat.properties with
            locales :=
              dictSet feat.properties.locales record.Locale.toLower record.Name } }
  else
    { feat with properties :=
        { feat.properties with
            synonyms := some (feat.properties.synonyms.getD [] ++ [record.Name]) } }

/-- Phase 3: layer the synonym rows; the same subscript raises `KeyError`
for a compound key never seeded by a primary row. -/
def csvSynPhase (slist : List SynRow) (acc0 : List (String × CsvFeature)) :
    Except String (List (String × CsvFeature)) :=
  slist.foldlM
    (fun acc record =>
      match acc.lookup (synKey record) with
      | none => Except.error ("KeyError: " ++ synKey record)
      | some feat => pure (dictSet acc (synKey record) (synRowApply record feat)))
    acc0

/-- `ReaderLocalCSVs._records_for_class_to_geojson` (`readers.py`): the
three phases in order, yielding the assembled features in dictionary order
(`itervalues`).  `syns = none` models a class without a synonyms file
(`records_from_files['synonyms']` stays `None`, and `if
csv_records['synonyms']:` skips the block). -/
def records_for_class_to_geojson (class_id : Int)
    (named : List NamedRow) (localRows : List LocalRow)
    (syns : Option (List SynRow)) : Except String (List CsvFeature) := do
  let out1 ← csvLocalPhase localRows (csvSeedPhase class_id named)
  let out2 ←
    match syns with
    | none => pure out1
    | some slist => csvSynPhase slist out1
  pure (out2.map (fun p => p.2))

/-- Whether a record's first geometry is an invalid polygon: exactly the
records the validity checks report (via `_get_Polygon`). -/
def invalidFirstPoly (r : Record) : Bool :=
  match get_Polygon r with
  | some p => !p.is_valid
  | none => false

/-- Whether the point-in-polygon checks report a geometry collection: both a
point and a polygon member present and `within` evaluating to `.ok false` (a
topology error or a `true` verdict is not reported). -/
def pipReportedGeoms (geoms : List Geom) : Bool :=
  match findPtPoly geoms with
  | (some pt, some pl) =>
    match withinE pt pl with
    | .ok false => true
    | _ => false
  | _ => false

/-- Whether the point-in-polygon checks report a record. -/
def pipReported (r : Record) : Bool :=
  match r.geometry with
  | none => false
  | some geoms => pipReportedGeoms geoms

/-- The compound keys a well-formed Postgres key-row list gives rise to in
`validate_keys`. -/
def pgCompoundKeys (rows : List PgKeyRow) : List String :=
  rows.map (fun row => row.1.getD "" ++ "_" ++ row.2.getD "")

/-- A Postgres key row whose two key cells are populated (neither `NULL` nor
the empty string). -/
def wellKeyed (row : PgKeyRow) : Bool :=
  match row.1, row.2 with
  | some a, some b => a ≠ "" && b ≠ ""
  | _, _ => false

/-! Concrete fixtures used by witnesses and counterexamples: two strictly
overlapping rectangles, a rectangle touching the first along an edge only, a
degenerate (zero-width) rectangle, and feature records wrapping them. -/

/-- A 10×10 square at the origin. -/
def rectA : Rect := ⟨0, 0, 10, 10⟩

/-- A square strictly overlapping `rectA`. -/
def rectB : Rect := ⟨5, 0, 15, 10⟩

/-- A square sharing only its left edge with `rectA`'s right edge. -/
def rectTouch : Rect := ⟨10, 0, 20, 10⟩

/-- A degenerate zero-width rectangle (invalid shape). -/
def rectDeg : Rect := ⟨3, 3, 3, 9⟩

/-- Feature 1 of map 0, class 1, carrying polygon `rectA`. -/
def recA : Record := ⟨⟨1, 0, 1, none⟩, some [.poly rectA]⟩

/-- Feature 2 of map 0, class 1, carrying polygon `rectB`. -/
def recB : Record := ⟨⟨2, 0, 1, none⟩, some [.poly rectB]⟩

/-- Feature 3 of map 0, class 1, carrying polygon `rectTouch`. -/
def recTouch : Record := ⟨⟨3, 0, 1, none⟩, some [.poly rectTouch]⟩

/-- A record with no `'geometry'` key at all. -/
def recNoGeom : Record := ⟨⟨4, 0, 1, none⟩, none⟩

/-- A record whose collection holds a point first and an invalid polygon
second. -/
def recPtThenBad : Record := ⟨⟨5, 0, 1, none⟩, some [.point 1 1, .poly rectDeg]⟩

/-- A record whose point lies outside its (valid) polygon. -/
def recPtOutside : Record := ⟨⟨6, 0, 1, none⟩, some [.point 20 20, .poly rectA]⟩

/-- A record whose point/polygon pair raises a topology error (degenerate
polygon). -/
def recTopo : Record := ⟨⟨7, 0, 1, none⟩, some [.point 4 4, .poly rectDeg]⟩

/-- A record carrying only a point (no polygon member). -/
def recPtOnly : Record := ⟨⟨8, 0, 1, none⟩, some [.point 1 1]⟩

/-- The `polygon_shapes` entry arising from `recA`. -/
def entA : PolyEntry := ⟨1, 1, 0, rectA⟩

/-- The `polygon_shapes` entry arising from `recB`. -/
def entB : PolyEntry := ⟨2, 1, 0, rectB⟩

/-- The `polygon_shapes` entry arising from `recTouch`. -/
def entTouch : PolyEntry := ⟨3, 1, 0, rectTouch⟩

/-! ## General helper lemmas -/

lemma foldl_preserve {α β : Type} (P : α → Prop) (f : α → β → α)
    (hf : ∀ a b, P a → P (f a b)) :
    ∀ (l : List β) (a : α), P a → P (l.foldl f a) := by
  intro l
  induction l with
  | nil => intro a ha; simpa using ha
  | cons b t ih =>
    intro a ha
    simpa using ih (f a b) (hf a b ha)

lemma lookup_cons_if {α : Type} (a : String) (b : α) (t : List (String × α))
    (k' : String) :
    List.lookup k' ((a, b) :: t) = if k' = a then some b else t.lookup k' := by
  by_cases h : k' = a
  · simp [List.lookup_cons, h]
  · have hb : (k' == a) = false := by simpa using h
    simp [List.lookup_cons, hb, h]

lemma lookup_map_replace_ne {α : Type} (t : List (String × α)) (k : String)
    (v : α) (k' : String) (hne : k' ≠ k) :
    (t.map (fun p => if p.1 = k then (k, v) else p)).lookup k' = t.lookup k' := by
  induction t with
  | nil => rfl
  | cons q r ih =>
    obtain ⟨q1, q2⟩ := q
    by_cases hq : q1 = k
    · simp only [List.map_cons, if_pos hq, lookup_cons_if]
      rw [hq]
      simp [hne, ih]
    · simp only [List.map_cons, if_neg hq, lookup_cons_if]
      by_cases hk : k' = q1
      · simp [hk]
      · simp [hk, ih]

lemma lookup_map_replace_eq {α : Type} (t : List (String × α)) (k : String)
    (v : α) (hk : t.any (fun p => p.1 = k) = true) :
    (t.map (fun p => if p.1 = k then (k, v) else p)).lookup k = some v := by
  induction t with
  | nil => simp at hk
  | cons q r ih =>
    obtain ⟨q1, q2⟩ := q
    by_cases hq : q1 = k
    · simp [List.map_cons, if_pos hq, lookup_cons_if]
    · have hr : r.any (fun p => p.1 = k) = true := by
        simp only [List.any_cons] at hk
        simpa [hq] using hk
      have hkq : k ≠ q1 := fun h => hq h.symm
      simp [List.map_cons, if_neg hq, lookup_cons_if, hkq, ih hr]

lemma lookup_append_absent {α : Type} (d : List (String × α)) (k : String)
    (v : α) (habs : d.any (fun p => p.1 = k) = false) (k' : String) :
    (d ++ [(k, v)]).lookup k' = if k' = k then some v else d.lookup k' := by
  induction d with
  | nil =>
    by_cases hk : k' = k <;> simp [lookup_cons_if, hk]
  | cons q r ih =>
    obtain ⟨q1, q2⟩ := q
    simp only [List.any_cons, Bool.or_eq_false_iff] at habs
    obtain ⟨hq, hr⟩ := habs
    have hqk : q1 ≠ k := by simpa using hq
    by_cases hk' : k' = q1
    · have hne : k' ≠ k := by rw [hk']; exact hqk
      simp [List.cons_append, lookup_cons_if, hk', hne, hqk]
    · simp [List.cons_append, lookup_cons_if, hk', ih hr]

lemma lookup_dictSet {α : Type} (d : List (String × α)) (k : String) (v : α)
    (k' : String) :
    (dictSet d k v).lookup k' = if k' = k then some v else d.lookup k' := by
  unfold dictSet
  by_cases hmem : d.any (fun p => p.1 = k) = true
  · simp only [hmem, if_true]
    by_cases hk : k' = k
    · rw [hk, if_pos rfl]
      exact lookup_map_replace_eq d k v hmem
    · rw [if_neg hk]
      exact lookup_map_replace_ne d k v k' hk
  · have hmem' : d.any (fun p => p.1 = k) = false := by
      rwa [Bool.not_eq_true] at hmem
    simp only [hmem', Bool.false_eq_true, if_false]
    exact lookup_append_absent d k v hmem' k'

lemma onlineStep_empty (data e : OnlineEntry) (topo : List (String × String)) :
    (onlineOverlapStep data ([], topo) e).1 = [] := by
  unfold onlineOverlapStep
  by_cases hg : onlineGuard data e = true
  · simp only [hg, if_true]
    rcases hov : overlapsE e.polygon data.polygon with msg | b
    · simp
    · cases b
      · simp
      · simp [List.lookup]
  · simp [hg]

lemma online_overlap_report_nil (records : List Record) :
    (online_test_overlappingPolygons records).1 = [] := by
  unfold online_test_overlappingPolygons
  refine foldl_preserve
    (fun acc : List (String × OverlapPayload) × List (String × String) =>
      acc.1 = []) _ ?_ _ ([], []) rfl
  intro a d ha
  refine foldl_preserve
    (fun acc : List (String × OverlapPayload) × List (String × String) =>
      acc.1 = []) _ ?_ _ a ha
  intro acc e hacc
  obtain ⟨res, topo⟩ := acc
  simp only at hacc
  rw [hacc]
  exact onlineStep_empty d e topo

/-- **C1.** The claim says the interactive overlap check returns every
overlapping same-class/same-map_code pair as a mapping from the pair key to
a `GeometryCollection` payload holding both offending geometries.  The code
instead subscripts the (still empty) report dictionary before initializing
the entry, raising `KeyError`, which the blanket `except` turns into a
topology-error entry: the returned report is empty for *every* input, and a
genuinely overlapping pair (`rectA`/`rectB` of equal class and map code)
lands in the topology-error list instead. -/
theorem c1_online_overlap_report_always_empty :
    (∀ records, (online_test_overlappingPolygons records).1 = [])
    ∧ overlapsE rectA rectB = .ok true
    ∧ online_test_overlappingPolygons [recA, recB]
        = ([], [("2_0;1_0", "KeyError"), ("1_0;2_0", "KeyError")]) :=
  ⟨online_overlap_report_nil, rfl, rfl⟩

/-- **C9.** Applying an empty staging set (every logical table present with
zero rows) via `_apply_staging` is the identity on the production hash. -/
theorem c9_empty_staging_identity {ρ : Type} (prod : GeoHash ρ) :
    apply_staging prod (emptyGeoHash ρ) = prod := rfl

lemma invalidShape_step_eq (acc : List String) (r : Record) :
    (match get_Polygon r with
     | some p => if !p.is_valid then acc ++ [compKey r] else acc
     | none => acc)
    = if invalidFirstPoly r then acc ++ [compKey r] else acc := by
  unfold invalidFirstPoly
  rcases get_Polygon r with _ | p
  · simp
  · cases hp : p.is_valid <;> simp [hp]

lemma invalidShape_foldl_eq_filter (l : List Record) (acc : List String) :
    l.foldl
      (fun acc r =>
        match get_Polygon r with
        | some p => if !p.is_valid then acc ++ [compKey r] else acc
        | none => acc)
      acc
    = acc ++ (l.filter invalidFirstPoly).map compKey := by
  induction l generalizing acc with
  | nil => simp
  | cons r t ih =>
    simp only [List.foldl_cons]
    rw [invalidShape_step_eq acc r, List.filter_cons]
    by_cases hrep : invalidFirstPoly r = true
    · rw [if_pos hrep, if_pos hrep, ih]
      simp
    · rw [if_neg hrep, if_neg hrep, ih]

/-- **C5 (amended).** The validity check consults only the *first* geometry
of a record's collection (`_get_Polygon` returns `None` as soon as the first
member is not a polygon): the violation list is exactly the compound keys of
the records whose first geometry is a polygon failing the validity
predicate, in input order. -/
theorem c5_invalidShape_first_geometry_only (records : List Record) :
    test_invalidShape records
      = (records.filter invalidFirstPoly).map compKey := by
  unfold test_invalidShape
  simpa using invalidShape_foldl_eq_filter records []

lemma lookup_isSome_eq_any {α : Type} (d : List (String × α)) (k : String) :
    (d.lookup k).isSome = d.any (fun p => p.1 = k) := by
  induction d with
  | nil => rfl
  | cons q r ih =>
    obtain ⟨q1, q2⟩ := q
    by_cases h : k = q1
    · simp [lookup_cons_if, h]
    · have h' : ¬q1 = k := fun hh => h hh.symm
      simp [lookup_cons_if, h, h', ih]

lemma lookup_eq_none_of_any_false {α : Type} (d : List (String × α))
    (k : String) (h : d.any (fun p => p.1 = k) = false) :
    d.lookup k = none := by
  have hs : (d.lookup k).isSome = false := by rw [lookup_isSome_eq_any, h]
  exact Option.not_isSome_iff_eq_none.mp (by simp [hs])

lemma build_idx_lookup_aux (l : List Record) :
    ∀ (acc : List (String × Record)) (msgs : List String) (k : String),
    ((l.foldl
        (fun acc r =>
          let k := compKey r
          if acc.1.any (fun p => p.1 = k) then
            (acc.1,
             acc.2 ++ ["Record already exists with the compound primary key " ++ k])
          else (acc.1 ++ [(k, r)], acc.2))
        (acc, msgs)).1).lookup k
      = (acc.lookup k).or (l.find? (fun r => compKey r == k)) := by
  induction l with
  | nil =>
    intro acc msgs k
    simp
  | cons r t ih =>
    intro acc msgs k
    simp only [List.foldl_cons]
    by_cases hc : acc.any (fun p => p.1 = compKey r) = true
    · simp only [hc, if_true]
      rw [ih]
      by_cases hk : compKey r = k
      · obtain ⟨v, hv⟩ : ∃ v, acc.lookup k = some v := by
          rw [← hk] at *
          exact Option.isSome_iff_exists.mp (by rw [lookup_isSome_eq_any, hc])
        rw [hv, List.find?_cons_of_pos _ (by simpa using hk)]
        simp
      · rw [List.find?_cons_of_neg _ (by simpa using hk)]
    · have hc' : acc.any (fun p => p.1 = compKey r) = false := by
        rwa [Bool.not_eq_true] at hc
      simp only [hc', Bool.false_eq_true, if_false]
      rw [ih]
      rw [lookup_append_absent acc (compKey r) r hc' k]
      by_cases hk : k = compKey r
      · have hnone : acc.lookup k = none := by
          rw [hk]
          exact lookup_eq_none_of_any_false acc (compKey r) hc'
        rw [if_pos hk, hnone,
          List.find?_cons_of_pos _ (by simpa using hk.symm)]
        simp
      · rw [if_neg hk, List.find?_cons_of_neg _ (by simp; exact fun h => hk h.symm)]

lemma build_idx_length_aux (l : List Record) :
    ∀ (acc : List (String × Record)) (msgs : List String),
    ((l.foldl
        (fun acc r =>
          let k := compKey r
          if acc.1.any (fun p => p.1 = k) then
            (acc.1,
             acc.2 ++ ["Record already exists with the compound primary key " ++ k])
          else (acc.1 ++ [(k, r)], acc.2))
        (acc, msgs)).1).length
      + ((l.foldl
          (fun acc r =>
            let k := compKey r
            if acc.1.any (fun p => p.1 = k) then
              (acc.1,
               acc.2 ++ ["Record already exists with the compound primary key " ++ k])
            else (acc.1 ++ [(k, r)], acc.2))
          (acc, msgs)).2).length
      = acc.length + msgs.length + l.length := by
  induction l with
  | nil =>
    intro acc msgs
    simp
  | cons r t ih =>
    intro acc msgs
    simp only [List.foldl_cons]
    by_cases hc : acc.any (fun p => p.1 = compKey r) = true
    · simp only [hc, if_true]
      rw [ih]
      simp
      omega
    · have hc' : acc.any (fun p => p.1 = compKey r) = false := by
        rwa [Bool.not_eq_true] at hc
      simp only [hc', Bool.false_eq_true, if_false]
      rw [ih]
      simp
      omega

lemma pgKeyCell_ok (t s : String) (h : s ≠ "") :
    pgKeyCell t (some s) = Except.ok s := by
  simp [pgKeyCell, h]

lemma pgRowKey_ok (t : String) (row : PgKeyRow) (h : wellKeyed row = true) :
    pgRowKey t row = Except.ok (row.1.getD "" ++ "_" ++ row.2.getD "") := by
  obtain ⟨a, b⟩ := row
  rcases a with _ | a
  · simp [wellKeyed] at h
  · rcases b with _ | b
    · simp [wellKeyed] at h
    · simp only [wellKeyed, Bool.and_eq_true, decide_eq_true_eq] at h
      unfold pgRowKey
      rw [pgKeyCell_ok t a h.1]
      rw [pgKeyCell_ok t b h.2]
      rfl

lemma mapM_pgRowKey (t : String) (rows : List PgKeyRow)
    (h : ∀ row ∈ rows, wellKeyed row = true) :
    rows.mapM (pgRowKey t) = Except.ok (pgCompoundKeys rows) := by
  induction rows with
  | nil => rfl
  | cons row rest ih =>
    rw [List.mapM_cons, pgRowKey_ok t row (h row (by simp))]
    rw [ih (fun r hr => h r (List.mem_cons_of_mem _ hr))]
    rfl

/-- **C4 (amended).** A recurring compound key is non-fatal only in the
post-assembly id-indexing step of `GeoCodingTest.__init__`: there the
first-seen record per compound key is retained (lookup equals the first
matching record of the input), every input row is accounted for either as a
retained entry or as a printed duplicate message, and no exception can be
raised.  The Postgres reader's `validate_keys`, in contrast, raises a
`ValueError` whenever a compound key recurs in a non-synonym table. -/
theorem c4_duplicate_key_handling :
    (∀ (data : List Record) (k : String),
        ((build_id_indexed_record data).1).lookup k
          = data.find? (fun r => compKey r == k))
    ∧ (∀ data : List Record,
        (build_id_indexed_record data).1.length
          + (build_id_indexed_record data).2.length = data.length)
    ∧ (∀ (rows : List PgKeyRow) (t : String),
        (∀ row ∈ rows, wellKeyed row = true) →
        ¬ (pgCompoundKeys rows).Nodup →
        validate_keys rows t
          = .error ("Duplicate keys found in " ++ t
              ++ " table of staging or production data")) := by
  refine ⟨?_, ?_, ?_⟩
  · intro data k
    unfold build_id_indexed_record
    rw [build_idx_lookup_aux data [] [] k]
    simp
  · intro data
    unfold build_id_indexed_record
    rw [build_idx_length_aux data [] []]
    simp
  · intro rows t hwell hdup
    unfold validate_keys
    rw [mapM_pgRowKey t rows hwell]
    have hne : ¬ pgCompoundKeys rows = [] := by
      intro he
      exact hdup (by rw [he]; exact List.nodup_nil)
    show (if pgCompoundKeys rows = [] then _ else _) = _
    rw [if_neg hne, if_neg hdup]

/-- **C4 (witness).** The amended claim applied to a concrete duplicated
input: two rows with compound key `1_0` in the `names` table make
`validate_keys` raise. -/
theorem c4_witness :
    validate_keys [(some "1", some "0"), (some "1", some "0")] "names"
      = .error "Duplicate keys found in names table of staging or production data" :=
  c4_duplicate_key_handling.2.2 [(some "1", some "0"), (some "1", some "0")]
    "names" (by decide) (by decide)

/-- **C4 (counterexample).** The claim as stated — a duplicate compound key
during assembly never raises — is false: `validate_keys` on two rows
carrying compound key `1_0` returns an error (Python: raises `ValueError`)
instead of continuing. -/
theorem c4_counterexample_validate_keys_raises :
    validate_keys [(some "1", some "0"), (some "1", some "0")] "features"
      = .error "Duplicate keys found in features table of staging or production data" :=
  rfl

lemma lookup_eq_none_of_not_mem_keys {α : Type} (d : List (String × α))
    (k : String) (h : k ∉ d.map Prod.fst) : d.lookup k = none := by
  apply lookup_eq_none_of_any_false
  rw [Bool.eq_false_iff]
  intro hany
  apply h
  rcases List.any_eq_true.mp hany with ⟨p, hp, hpk⟩
  exact List.mem_map.mpr ⟨p, hp, by simpa using hpk⟩

lemma lookup_dictUpdate {α : Type} (m : List (String × α)) :
    ∀ (d : List (String × α)), NodupKeys m → ∀ k,
    (dictUpdate d m).lookup k = (m.lookup k).or (d.lookup k) := by
  induction m with
  | nil =>
    intro d _ k
    simp [dictUpdate]
  | cons p t ih =>
    intro d hm k
    obtain ⟨p1, p2⟩ := p
    have hm2 : (((p1, p2) :: t).map Prod.fst).Nodup := hm
    rw [List.map_cons] at hm2
    rcases List.nodup_cons.mp hm2 with ⟨hp, ht⟩
    have hstep : dictUpdate d ((p1, p2) :: t) = dictUpdate (dictSet d p1 p2) t := rfl
    rw [hstep, ih (dictSet d p1 p2) ht k, lookup_dictSet d p1 p2 k, lookup_cons_if]
    by_cases hk : k = p1
    · have hnone : t.lookup k = none :=
        lookup_eq_none_of_not_mem_keys t k (hk ▸ hp)
      rw [hnone, if_pos hk, if_pos hk]
      simp
    · rw [if_neg hk, if_neg hk]

lemma synApply_step_lookup {ρ : Type} (prod : List (String × List ρ))
    (p1 : String) (p2 : List ρ) (k : String) :
    ((match prod.lookup p1 with
      | some pv => dictSet prod p1 (pv ++ p2)
      | none => prod ++ [(p1, p2)]) : List (String × List ρ)).lookup k
    = if k = p1 then some ((prod.lookup p1).getD [] ++ p2)
      else prod.lookup k := by
  rcases hpl : prod.lookup p1 with _ | pv
  · have habs : prod.any (fun q => q.1 = p1) = false := by
      have := lookup_isSome_eq_any prod p1
      rw [hpl] at this
      simpa using this.symm
    rw [lookup_append_absent prod p1 p2 habs k]
    simp
  · rw [lookup_dictSet prod p1 (pv ++ p2) k]
    simp

lemma lookup_synApply {ρ : Type} (m : List (String × List ρ)) :
    ∀ (prod : List (String × List ρ)), NodupKeys m → ∀ k,
    (synApply prod m).lookup k
      = match m.lookup k with
        | some v => some ((prod.lookup k).getD [] ++ v)
        | none => prod.lookup k := by
  induction m with
  | nil =>
    intro prod _ k
    simp [synApply]
  | cons p t ih =>
    intro prod hm k
    obtain ⟨p1, p2⟩ := p
    have hm2 : (((p1, p2) :: t).map Prod.fst).Nodup := hm
    rw [List.map_cons] at hm2
    rcases List.nodup_cons.mp hm2 with ⟨hp, ht⟩
    have hstep : synApply prod ((p1, p2) :: t)
        = synApply
            (match prod.lookup p1 with
             | some pv => dictSet prod p1 (pv ++ p2)
             | none => prod ++ [(p1, p2)]) t := rfl
    rw [hstep, ih _ ht k, lookup_cons_if]
    by_cases hk : k = p1
    · have hnone : t.lookup k = none :=
        lookup_eq_none_of_not_mem_keys t k (hk ▸ hp)
      rw [hnone, if_pos hk, synApply_step_lookup prod p1 p2 k, if_pos hk, hk]
    · rw [if_neg hk]
      rcases htl : t.lookup k with _ | v
      · simp only
        rw [synApply_step_lookup prod p1 p2 k, if_neg hk]
      · simp only
        rw [synApply_step_lookup prod p1 p2 k, if_neg hk]

/-- **C8.** `_apply_staging` semantics, per compound key: for each
non-synonym table a key present in the staging hash replaces the production
record in full (staging value wins, production value only surfaces for keys
absent from staging); for the synonym table the staging values are appended
to the production list when the key exists, and become the entry when it
does not (`(production value or []) ++ staging values`). -/
theorem c8_staging_merge_semantics {ρ : Type} (prod merge : GeoHash ρ)
    (hf : NodupKeys merge.features) (hn : NodupKeys merge.names)
    (hpt : NodupKeys merge.points) (hpg : NodupKeys merge.polygons)
    (hs : NodupKeys merge.synonyms) (k : String) :
    ((apply_staging prod merge).features.lookup k
        = (merge.features.lookup k).or (prod.features.lookup k))
    ∧ ((apply_staging prod merge).names.lookup k
        = (merge.names.lookup k).or (prod.names.lookup k))
    ∧ ((apply_staging prod merge).points.lookup k
        = (merge.points.lookup k).or (prod.points.lookup k))
    ∧ ((apply_staging prod merge).polygons.lookup k
        = (merge.polygons.lookup k).or (prod.polygons.lookup k))
    ∧ ((apply_staging prod merge).synonyms.lookup k
        = match merge.synonyms.lookup k with
          | some v => some ((prod.synonyms.lookup k).getD [] ++ v)
          | none => prod.synonyms.lookup k) :=
  ⟨lookup_dictUpdate merge.features prod.features hf k,
   lookup_dictUpdate merge.names prod.names hn k,
   lookup_dictUpdate merge.points prod.points hpt k,
   lookup_dictUpdate merge.polygons prod.polygons hpg k,
   lookup_synApply merge.synonyms prod.synonyms hs k⟩

/-- A small concrete production hash used by the C8 witness. -/
def prodSample : GeoHash String :=
  ⟨[("a", "pf")], [("a", "pn")], [], [], [("a", ["s1"])]⟩

/-- A small concrete staging hash used by the C8 witness. -/
def mergeSample : GeoHash String :=
  ⟨[("a", "sf")], [], [("b", "sp")], [], [("a", ["s2"]), ("b", ["s3"])]⟩

/-- **C8 (witness).** The merge semantics at a concrete production/staging
pair: the staged `features` value replaces the production one and the staged
synonym is appended to the production synonym list. -/
theorem c8_witness :
    (apply_staging prodSample mergeSample).features.lookup "a" = some "sf"
    ∧ (apply_staging prodSample mergeSample).names.lookup "a" = some "pn"
    ∧ (apply_staging prodSample mergeSample).synonyms.lookup "a"
        = some ["s1", "s2"] := by
  have h := c8_staging_merge_semantics prodSample mergeSample
    (by decide) (by decide) (by decide) (by decide) (by decide) "a"
  refine ⟨?_, ?_, ?_⟩
  · rw [h.1]
    decide
  · rw [h.2.1]
    decide
  · rw [h.2.2.2.2]
    decide

/-- **C5 (counterexample).** A record holding a point first and an invalid
polygon second: the polygon is in the collection and fails the validity
predicate, yet the validity check reports nothing — refuting the claim that
a polygon *anywhere* in the collection is evaluated. -/
theorem c5_counterexample_polygon_after_point :
    test_invalidShape [recPtThenBad] = []
    ∧ recPtThenBad.geometry = some [Geom.point 1 1, Geom.poly rectDeg]
    ∧ Geom.poly rectDeg ∈ [Geom.point 1 1, Geom.poly rectDeg]
    ∧ rectDeg.is_valid = false :=
  ⟨rfl, rfl, by decide, rfl⟩

lemma mem_dictSet {α : Type} (d : List (String × α)) (k : String) (v : α)
    (q : String × α) (hq : q ∈ dictSet d k v) : q ∈ d ∨ q = (k, v) := by
  unfold dictSet at hq
  by_cases hmem : d.any (fun p => p.1 = k) = true
  · rw [if_pos hmem] at hq
    rcases List.mem_map.mp hq with ⟨p, hp, hpq⟩
    by_cases hpk : p.1 = k
    · right
      rw [if_pos hpk] at hpq
      exact hpq.symm
    · left
      rw [if_neg hpk] at hpq
      exact hpq ▸ hp
  · rw [if_neg hmem] at hq
    rcases List.mem_append.mp hq with h | h
    · exact Or.inl h
    · exact Or.inr (by simpa using h)

lemma pip_step_eq (acc : List String) (r : Record) (geoms : List Geom)
    (hg : r.geometry = some geoms) :
    (do
      let geoms ← exceptGeoms r
      (match findPtPoly geoms with
       | (some pt, some pl) =>
         match withinE pt pl with
         | .error _ => pure acc
         | .ok true => pure acc
         | .ok false => pure (acc ++ [compKey r])
       | _ => pure acc) : Except String (List String))
    = Except.ok (if pipReported r then acc ++ [compKey r] else acc) := by
  have hex : exceptGeoms r = .ok geoms := by
    unfold exceptGeoms
    rw [hg]
  have hrep : pipReported r = pipReportedGeoms geoms := by
    unfold pipReported
    rw [hg]
  rw [hex, hrep]
  show (match findPtPoly geoms with
        | (some pt, some pl) =>
          match withinE pt pl with
          | .error _ => pure acc
          | .ok true => pure acc
          | .ok false => pure (acc ++ [compKey r])
        | _ => pure acc)
      = Except.ok (if pipReportedGeoms geoms then acc ++ [compKey r] else acc)
  unfold pipReportedGeoms
  rcases findPtPoly geoms with ⟨_ | pt, _ | pl⟩
  · rfl
  · rfl
  · rfl
  · show (match withinE pt pl with
          | .error _ => pure acc
          | .ok true => pure acc
          | .ok false => pure (acc ++ [compKey r]))
        = Except.ok
            (if (match withinE pt pl with
                 | .ok false => true
                 | _ => false) = true
             then acc ++ [compKey r] else acc)
    rcases withinE pt pl with e | b
    · rfl
    · cases b <;> rfl

lemma pip_foldlM_eq (l : List Record) :
    ∀ acc : List String,
    (∀ r ∈ l, r.geometry.isSome = true) →
    l.foldlM
      (fun acc r => do
        let geoms ← exceptGeoms r
        match findPtPoly geoms with
        | (some pt, some pl) =>
          match withinE pt pl with
          | .error _ => pure acc
          | .ok true => pure acc
          | .ok false => pure (acc ++ [compKey r])
        | _ => pure acc)
      acc
    = Except.ok (acc ++ (l.filter pipReported).map compKey) := by
  induction l with
  | nil =>
    intro acc _
    simp
    rfl
  | cons r t ih =>
    intro acc h
    obtain ⟨geoms, hg⟩ := Option.isSome_iff_exists.mp (h r (by simp))
    rw [List.foldlM_cons, pip_step_eq acc r geoms hg]
    have hbind :
        (Except.ok (if pipReported r then acc ++ [compKey r] else acc)
          >>= fun b =>
            t.foldlM
              (fun acc r => do
                let geoms ← exceptGeoms r
                match findPtPoly geoms with
                | (some pt, some pl) =>
                  match withinE pt pl with
                  | .error _ => pure acc
                  | .ok true => pure acc
                  | .ok false => pure (acc ++ [compKey r])
                | _ => pure acc)
              b)
        = t.foldlM
            (fun acc r => do
              let geoms ← exceptGeoms r
              match findPtPoly geoms with
              | (some pt, some pl) =>
                match withinE pt pl with
                | .error _ => pure acc
                | .ok true => pure acc
                | .ok false => pure (acc ++ [compKey r])
              | _ => pure acc)
            (if pipReported r then acc ++ [compKey r] else acc) := rfl
    rw [hbind, ih _ (fun x hx => h x (List.mem_cons_of_mem _ hx)),
      List.filter_cons]
    by_cases hrep : pipReported r = true
    · rw [if_pos hrep, if_pos hrep]
      simp
    · rw [if_neg hrep, if_neg hrep]

/-- **C7.** The point-in-polygon check reports exactly the features whose
collection carries both a point and a polygon and for which `within`
evaluates to `false`: on any input in which every record has its geometry
entry (so the check completes), the violation list equals the compound keys
of the `pipReported` records, and at the predicate level a `.ok false`
verdict makes a record reported while a topology error makes it silently
skipped — the source's asymmetry. -/
theorem c7_pip_topology_error_skipped_false_reported (records : List Record)
    (h : ∀ r ∈ records, r.geometry.isSome = true) :
    (test_PointInPolygonGeom records
      = .ok ((records.filter pipReported).map compKey))
    ∧ (∀ r : Record, ∀ geoms pt pl, r.geometry = some geoms →
        findPtPoly geoms = (some pt, some pl) →
        (withinE pt pl = .ok false → pipReported r = true)
        ∧ (∀ e, withinE pt pl = .error e → pipReported r = false)) := by
  constructor
  · unfold test_PointInPolygonGeom
    simpa using pip_foldlM_eq records [] h
  · intro r geoms pt pl hg hfp
    have hrep : pipReported r = pipReportedGeoms geoms := by
      unfold pipReported
      rw [hg]
    constructor
    · intro hw
      rw [hrep]
      unfold pipReportedGeoms
      rw [hfp]
      show (match withinE pt pl with
            | .ok false => true
            | _ => false) = true
      rw [hw]
    · intro e hw
      rw [hrep]
      unfold pipReportedGeoms
      rw [hfp]
      show (match withinE pt pl with
            | .ok false => true
            | _ => false) = false
      rw [hw]

/-- **C7 (witness).** The characterization applied to a concrete input: a
point outside its polygon is reported, a degenerate polygon raising a
topology error and a point-only record are skipped. -/
theorem c7_witness :
    test_PointInPolygonGeom [recPtOutside, recTopo, recPtOnly]
      = .ok ["6_0"] := by
  have h := (c7_pip_topology_error_skipped_false_reported
    [recPtOutside, recTopo, recPtOnly] (by decide)).1
  rw [h]
  rfl

lemma online_pip_step_eq (acc : List (String × List Geom)) (r : Record)
    (geoms : List Geom) (hg : r.geometry = some geoms) :
    (do
      let geoms ← exceptGeoms r
      (match findPtPoly geoms with
       | (some pt, some pl) =>
         match withinE pt pl with
         | .error _ => pure acc
         | .ok true => pure acc
         | .ok false => pure (dictSet acc (compKey r) geoms)
       | _ => pure acc) : Except String (List (String × List Geom)))
    = Except.ok
        (if pipReported r then dictSet acc (compKey r) geoms else acc) := by
  have hex : exceptGeoms r = .ok geoms := by
    unfold exceptGeoms
    rw [hg]
  have hrep : pipReported r = pipReportedGeoms geoms := by
    unfold pipReported
    rw [hg]
  rw [hex, hrep]
  show (match findPtPoly geoms with
        | (some pt, some pl) =>
          match withinE pt pl with
          | .error _ => pure acc
          | .ok true => pure acc
          | .ok false => pure (dictSet acc (compKey r) geoms)
        | _ => pure acc)
      = Except.ok
          (if pipReportedGeoms geoms then dictSet acc (compKey r) geoms else acc)
  unfold pipReportedGeoms
  rcases findPtPoly geoms with ⟨_ | pt, _ | pl⟩
  · rfl
  · rfl
  · rfl
  · show (match withinE pt pl with
          | .error _ => pure acc
          | .ok true => pure acc
          | .ok false => pure (dictSet acc (compKey r) geoms))
        = Except.ok
            (if (match withinE pt pl with
                 | .ok false => true
                 | _ => false) = true
             then dictSet acc (compKey r) geoms else acc)
    rcases withinE pt pl with e | b
    · rfl
    · cases b <;> rfl

lemma online_pip_sound (l : List Record) :
    ∀ acc : List (String × List Geom),
    (∀ r ∈ l, r.geometry.isSome = true) →
    ∃ out,
      l.foldlM
        (fun acc r => do
          let geoms ← exceptGeoms r
          match findPtPoly geoms with
          | (some pt, some pl) =>
            match withinE pt pl with
            | .error _ => pure acc
            | .ok true => pure acc
            | .ok false => pure (dictSet acc (compKey r) geoms)
          | _ => pure acc)
        acc
      = .ok out
      ∧ ∀ p ∈ out, p ∈ acc ∨ ∃ r ∈ l, p.1 = compKey r ∧ pipReported r = true := by
  induction l with
  | nil =>
    intro acc _
    exact ⟨acc, rfl, fun p hp => Or.inl hp⟩
  | cons r t ih =>
    intro acc h
    obtain ⟨geoms, hg⟩ := Option.isSome_iff_exists.mp (h r (by simp))
    obtain ⟨out, hout, hsound⟩ :=
      ih (if pipReported r then dictSet acc (compKey r) geoms else acc)
        (fun x hx => h x (List.mem_cons_of_mem _ hx))
    refine ⟨out, ?_, ?_⟩
    · rw [List.foldlM_cons, online_pip_step_eq acc r geoms hg]
      exact hout
    · intro p hp
      rcases hsound p hp with hacc | ⟨x, hx, hkey, hrep⟩
      · by_cases hrepr : pipReported r = true
        · rw [if_pos hrepr] at hacc
          rcases mem_dictSet acc (compKey r) geoms p hacc with hmem | hpr
          · exact Or.inl hmem
          · exact Or.inr ⟨r, by simp, by rw [hpr], hrepr⟩
        · rw [if_neg hrepr] at hacc
          exact Or.inl hacc
      · exact Or.inr ⟨x, List.mem_cons_of_mem _ hx, hkey, hrep⟩

lemma online_invalid_step_eq (acc : List (Int × Record)) (r : Record)
    (geoms : List Geom) (hg : r.geometry = some geoms) :
    (do
      let _geoms ← exceptGeoms r
      (match get_Polygon r with
       | some p =>
         if !p.is_valid then
           if acc.any (fun q => q.1 = r.properties.id) then pure acc
           else pure (acc ++ [(r.properties.id, r)])
         else pure acc
       | none => pure acc) : Except String (List (Int × Record)))
    = Except.ok
        (if invalidFirstPoly r then
           if acc.any (fun q => q.1 = r.properties.id) then acc
           else acc ++ [(r.properties.id, r)]
         else acc) := by
  have hex : exceptGeoms r = .ok geoms := by
    unfold exceptGeoms
    rw [hg]
  rw [hex]
  show (match get_Polygon r with
        | some p =>
          if !p.is_valid then
            if acc.any (fun q => q.1 = r.properties.id) then pure acc
            else pure (acc ++ [(r.properties.id, r)])
          else pure acc
        | none => pure acc)
      = Except.ok _
  unfold invalidFirstPoly
  rcases get_Polygon r with _ | p
  · rfl
  · cases hb : p.is_valid <;>
      cases ha : acc.any (fun q => q.1 = r.properties.id) <;>
      simp [hb, ha] <;> rfl

lemma online_invalid_sound (l : List Record) :
    ∀ acc : List (Int × Record),
    (∀ r ∈ l, r.geometry.isSome = true) →
    ∃ out,
      l.foldlM
        (fun acc r => do
          let _geoms ← exceptGeoms r
          match get_Polygon r with
          | some p =>
            if !p.is_valid then
              if acc.any (fun q => q.1 = r.properties.id) then pure acc
              else pure (acc ++ [(r.properties.id, r)])
            else pure acc
          | none => pure acc)
        acc
      = .ok out
      ∧ ∀ q ∈ out, q ∈ acc
          ∨ ∃ r ∈ l, q = (r.properties.id, r) ∧ invalidFirstPoly r = true := by
  induction l with
  | nil =>
    intro acc _
    exact ⟨acc, rfl, fun q hq => Or.inl hq⟩
  | cons r t ih =>
    intro acc h
    obtain ⟨geoms, hg⟩ := Option.isSome_iff_exists.mp (h r (by simp))
    obtain ⟨out, hout, hsound⟩ :=
      ih (if invalidFirstPoly r then
            if acc.any (fun q => q.1 = r.properties.id) then acc
            else acc ++ [(r.properties.id, r)]
          else acc)
        (fun x hx => h x (List.mem_cons_of_mem _ hx))
    refine ⟨out, ?_, ?_⟩
    · rw [List.foldlM_cons, online_invalid_step_eq acc r geoms hg]
      exact hout
    · intro q hq
      rcases hsound q hq with hacc | ⟨x, hx, hkey, hinv⟩
      · by_cases hrepr : invalidFirstPoly r = true
        · rw [if_pos hrepr] at hacc
          by_cases hany : acc.any (fun q => q.1 = r.properties.id) = true
          · rw [if_pos hany] at hacc
            exact Or.inl hacc
          · rw [if_neg hany] at hacc
            rcases List.mem_append.mp hacc with hmem | hnew
            · exact Or.inl hmem
            · exact Or.inr ⟨r, by simp, by simpa using hnew, hrepr⟩
        · rw [if_neg hrepr] at hacc
          exact Or.inl hacc
      · exact Or.inr ⟨x, List.mem_cons_of_mem _ hx, hkey, hinv⟩

/-- **C6 (amended).** Absence of the *point or polygon member* inside a
present geometry collection never raises: on inputs where every record
carries its geometry entry, the offline point-in-polygon check, the online
point-in-polygon check and the online validity check all complete, and each
reported entry stems from a record actually carrying the members the check
needs (so member-less records are skipped, not reported, and never crash the
run).  Absence of the *geometry entry itself*, however, raises `KeyError`
(see the counterexample), so the original claim holds only for member
absence. -/
theorem c6_missing_geometry_member_skipped (records : List Record)
    (h : ∀ r ∈ records, r.geometry.isSome = true) :
    (∃ out, test_PointInPolygonGeom records = .ok out
        ∧ ∀ s ∈ out, ∃ r ∈ records, s = compKey r ∧ pipReported r = true)
    ∧ (∃ out, online_test_PointInPolygon records = .ok out
        ∧ ∀ p ∈ out, ∃ r ∈ records, p.1 = compKey r ∧ pipReported r = true)
    ∧ (∃ out, online_test_invalidShape records = .ok out
        ∧ ∀ q ∈ out, ∃ r ∈ records,
            q = (r.properties.id, r) ∧ invalidFirstPoly r = true) := by
  refine ⟨?_, ?_, ?_⟩
  · refine ⟨(records.filter pipReported).map compKey, ?_, ?_⟩
    · unfold test_PointInPolygonGeom
      simpa using pip_foldlM_eq records [] h
    · intro s hs
      rcases List.mem_map.mp hs with ⟨r, hr, hsr⟩
      rcases List.mem_filter.mp hr with ⟨hrm, hrep⟩
      exact ⟨r, hrm, hsr.symm, hrep⟩
  · obtain ⟨out, hout, hsound⟩ := online_pip_sound records [] h
    refine ⟨out, hout, ?_⟩
    intro p hp
    rcases hsound p hp with hfalse | hok
    · simp at hfalse
    · exact hok
  · obtain ⟨out, hout, hsound⟩ := online_invalid_sound records [] h
    refine ⟨out, hout, ?_⟩
    intro q hq
    rcases hsound q hq with hfalse | hok
    · simp at hfalse
    · exact hok

/-- **C6 (counterexample).** A record with no geometry entry at all makes
the point-in-polygon check raise `KeyError` instead of skipping the record,
refuting the claim that *no* spatial check ever raises on absent geometry. -/
theorem c6_counterexample_missing_geometry_raises :
    test_PointInPolygonGeom [recNoGeom] = .error "KeyError: geometry"
    ∧ online_test_PointInPolygon [recNoGeom] = .error "KeyError: geometry"
    ∧ online_test_invalidShape [recNoGeom] = .error "KeyError: geometry" :=
  ⟨rfl, rfl, rfl⟩

/-- **C6 (witness).** The amended theorem applied to a concrete input whose
records all carry geometry entries: the checks complete and reported entries
stem from member-carrying records. -/
theorem c6_witness :
    (∀ r ∈ [recPtOutside, recTopo, recPtOnly], r.geometry.isSome = true)
    ∧ (∃ out, online_test_PointInPolygon [recPtOutside, recTopo, recPtOnly]
          = .ok out
        ∧ ∀ p ∈ out, ∃ r ∈ [recPtOutside, recTopo, recPtOnly],
            p.1 = compKey r ∧ pipReported r = true) :=
  ⟨by decide,
   (c6_missing_geometry_member_skipped [recPtOutside, recTopo, recPtOnly]
      (by decide)).2.1⟩

lemma except_bind_ok {α β : Type} (a : α) (f : α → Except String β) :
    (Except.ok a >>= f) = f a := rfl

lemma dictSet_lookup_isSome_of_present {α : Type} (d : List (String × α))
    (k : String) (v : α) (h : (d.lookup k).isSome = true) (k' : String) :
    ((dictSet d k v).lookup k').isSome = (d.lookup k').isSome := by
  rw [lookup_dictSet]
  by_cases hk : k' = k
  · rw [if_pos hk, hk, h]
    rfl
  · rw [if_neg hk]

lemma seed_lookup_isSome_aux (class_id : Int) (named : List NamedRow) :
    ∀ (acc : List (String × CsvFeature)) (k : String),
    ((named.foldl
        (fun acc record =>
          dictSet acc (namedKey record) (namedRowFeature class_id record))
        acc).lookup k).isSome = true
      ↔ (acc.lookup k).isSome = true ∨ k ∈ named.map namedKey := by
  induction named with
  | nil =>
    intro acc k
    simp
  | cons record t ih =>
    intro acc k
    rw [List.foldl_cons, ih]
    rw [lookup_dictSet]
    by_cases hk : k = namedKey record
    · rw [if_pos hk]
      simp [hk]
    · rw [if_neg hk]
      constructor
      · rintro (h | h)
        · exact Or.inl h
        · exact Or.inr (by rw [List.map_cons]; exact List.mem_cons_of_mem _ h)
      · rintro (h | h)
        · exact Or.inl h
        · rw [List.map_cons] at h
          rcases List.mem_cons.mp h with h1 | h1
          · exact absurd h1 hk
          · exact Or.inr h1

lemma seed_lookup_isSome (class_id : Int) (named : List NamedRow)
    (k : String) :
    (((csvSeedPhase class_id named).lookup k).isSome = true)
      ↔ k ∈ named.map namedKey := by
  unfold csvSeedPhase
  rw [seed_lookup_isSome_aux class_id named [] k]
  simp

lemma csvLocalPhase_ok (localRows : List LocalRow) :
    ∀ acc : List (String × CsvFeature),
    (∀ l ∈ localRows, (acc.lookup (localKey l)).isSome = true) →
    ∃ out, csvLocalPhase localRows acc = .ok out
      ∧ ∀ k, (out.lookup k).isSome = (acc.lookup k).isSome := by
  induction localRows with
  | nil =>
    intro acc _
    exact ⟨acc, rfl, fun k => rfl⟩
  | cons r t ih =>
    intro acc h
    obtain ⟨feat, hfeat⟩ :=
      Option.isSome_iff_exists.mp (h r (by simp))
    have hset : ((dictSet acc (localKey r)
        { feat with geometry := some (localRowGeoms r) }).lookup
          (localKey r)).isSome = true := by
      rw [lookup_dictSet, if_pos rfl]
      rfl
    obtain ⟨out, hout, hiso⟩ :=
      ih (dictSet acc (localKey r) { feat with geometry := some (localRowGeoms r) })
        (fun l hl => by
          rw [dictSet_lookup_isSome_of_present _ _ _ (by rw [hfeat]; rfl)]
          exact h l (List.mem_cons_of_mem _ hl))
    refine ⟨out, ?_, ?_⟩
    · unfold csvLocalPhase
      rw [List.foldlM_cons, hfeat]
      exact hout
    · intro k
      rw [hiso k,
        dictSet_lookup_isSome_of_present _ _ _ (by rw [hfeat]; rfl)]

lemma csvSynPhase_ok (slist : List SynRow) :
    ∀ acc : List (String × CsvFeature),
    (∀ s ∈ slist, (acc.lookup (synKey s)).isSome = true) →
    ∃ out, csvSynPhase slist acc = .ok out
      ∧ ∀ k, (out.lookup k).isSome = (acc.lookup k).isSome := by
  induction slist with
  | nil =>
    intro acc _
    exact ⟨acc, rfl, fun k => rfl⟩
  | cons r t ih =>
    intro acc h
    obtain ⟨feat, hfeat⟩ :=
      Option.isSome_iff_exists.mp (h r (by simp))
    obtain ⟨out, hout, hiso⟩ :=
      ih (dictSet acc (synKey r) (synRowApply r feat))
        (fun s hs => by
          rw [dictSet_lookup_isSome_of_present _ _ _ (by rw [hfeat]; rfl)]
          exact h s (List.mem_cons_of_mem _ hs))
    refine ⟨out, ?_, ?_⟩
    · unfold csvSynPhase
      rw [List.foldlM_cons, hfeat]
      exact hout
    · intro k
      rw [hiso k,
        dictSet_lookup_isSome_of_present _ _ _ (by rw [hfeat]; rfl)]

/-- **C10.** CSV feature assembly is partial: an auxiliary `LocalData` row
whose compound key was never seeded by a primary row makes the assembler
raise an uncaught `KeyError` (first conjunct, at the concrete orphan key
`5_0`); and assembly is total over the inputs in which every auxiliary
(geometry or synonym) row's compound key was first seeded by a primary row
(second conjunct). -/
theorem c10_unseeded_auxiliary_key_raises :
    (records_for_class_to_geojson 2 [] [⟨"5", "0", none, 1, 1⟩] none
        = .error "KeyError: 5_0")
    ∧ (∀ (class_id : Int) (named : List NamedRow) (localRows : List LocalRow)
          (syns : Option (List SynRow)),
        (∀ l ∈ localRows, localKey l ∈ named.map namedKey) →
        (∀ s ∈ syns.getD [], synKey s ∈ named.map namedKey) →
        ∃ out, records_for_class_to_geojson class_id named localRows syns
          = .ok out) := by
  constructor
  · rfl
  · intro class_id named localRows syns hloc hsyn
    obtain ⟨out1, h1, hiso1⟩ :=
      csvLocalPhase_ok localRows (csvSeedPhase class_id named)
        (fun l hl =>
          (seed_lookup_isSome class_id named (localKey l)).mpr (hloc l hl))
    rcases syns with _ | slist
    · refine ⟨out1.map (fun p => p.2), ?_⟩
      unfold records_for_class_to_geojson
      rw [h1, except_bind_ok]
      rfl
    · obtain ⟨out2, h2, _⟩ :=
        csvSynPhase_ok slist out1
          (fun s hs => by
            rw [hiso1]
            exact (seed_lookup_isSome class_id named (synKey s)).mpr
              (hsyn s (by simpa using hs)))
      refine ⟨out2.map (fun p => p.2), ?_⟩
      unfold records_for_class_to_geojson
      rw [h1, except_bind_ok]
      show (csvSynPhase slist out1 >>= fun out2 => pure (out2.map (fun p => p.2))) = _
      rw [h2, except_bind_ok]
      rfl

/-- **C10 (witness).** Totality applied to a concrete seeded input: one
primary row with key `5_0` and one `LocalData` row carrying the same key
assemble without error. -/
theorem c10_witness :
    ∃ out,
      records_for_class_to_geojson 2 [⟨5, 0, "", none, none⟩]
        [⟨"5", "0", none, 1, 1⟩] none = .ok out :=
  c10_unseeded_auxiliary_key_raises.2 2 [⟨5, 0, "", none, none⟩]
    [⟨"5", "0", none, 1, 1⟩] none (by decide) (by decide)

/-! ## Overlap-check machinery: composite-key strings contain no `';'`,
so a pair string decomposes uniquely into its two keys. -/

lemma digitChar_ne_semicolon (n : Nat) : Nat.digitChar n ≠ ';' := by
  rcases Nat.lt_or_ge n 16 with h | h
  · interval_cases n <;> decide
  · unfold Nat.digitChar
    iterate 16 rw [if_neg (by omega)]
    decide

lemma toDigitsCore_no_semicolon (b : Nat) :
    ∀ (f n : Nat) (acc : List Char),
    ';' ∉ acc → ';' ∉ Nat.toDigitsCore b f n acc := by
  intro f
  induction f with
  | zero =>
    intro n acc hacc
    simpa [Nat.toDigitsCore] using hacc
  | succ f ih =>
    intro n acc hacc
    have hcons : ';' ∉ Nat.digitChar (n % b) :: acc := by
      intro hmem
      rcases List.mem_cons.mp hmem with h | h
      · exact digitChar_ne_semicolon (n % b) h.symm
      · exact hacc h
    show ';' ∉
      (if n / b = 0 then Nat.digitChar (n % b) :: acc
       else Nat.toDigitsCore b f (n / b) (Nat.digitChar (n % b) :: acc))
    by_cases hz : n / b = 0
    · rw [if_pos hz]
      exact hcons
    · rw [if_neg hz]
      exact ih (n / b) (Nat.digitChar (n % b) :: acc) hcons

lemma natRepr_no_semicolon (n : Nat) : ';' ∉ (Nat.repr n).data := by
  show ';' ∉ ((Nat.toDigits 10 n).asString).data
  have hdata : ((Nat.toDigits 10 n).asString).data = Nat.toDigits 10 n := rfl
  rw [hdata]
  exact toDigitsCore_no_semicolon 10 (n + 1) n [] (by simp)

lemma intToString_no_semicolon (n : Int) : ';' ∉ (toString n).data := by
  show ';' ∉ (Int.repr n).data
  rcases n with m | m
  · exact natRepr_no_semicolon m
  · show ';' ∉ ("-" ++ Nat.repr (m + 1)).data
    rw [String.data_append]
    intro hmem
    rcases List.mem_append.mp hmem with h | h
    · simp at h
    · exact natRepr_no_semicolon (m + 1) h

lemma entryKey_no_semicolon (e : PolyEntry) : ';' ∉ (entryKey e).data := by
  unfold entryKey
  rw [String.data_append, String.data_append]
  intro hmem
  rcases List.mem_append.mp hmem with h | h
  · rcases List.mem_append.mp h with h1 | h1
    · exact intToString_no_semicolon e.pid h1
    · simp at h1
  · exact intToString_no_semicolon e.map_code h

lemma append_cons_sep_inj (l1 : List Char) :
    ∀ (l3 l2 l4 : List Char), ';' ∉ l1 → ';' ∉ l3 →
    l1 ++ ';' :: l2 = l3 ++ ';' :: l4 → l1 = l3 ∧ l2 = l4 := by
  induction l1 with
  | nil =>
    intro l3 l2 l4 _ h3 h
    rcases l3 with _ | ⟨c, t3⟩
    · simp only [List.nil_append, List.cons.injEq] at h
      exact ⟨rfl, h.2⟩
    · rw [List.nil_append, List.cons_append] at h
      injection h with hc _
      apply absurd _ h3
      rw [← hc]
      exact List.mem_cons_self _ _
  | cons c t1 ih =>
    intro l3 l2 l4 h1 h3 h
    rcases l3 with _ | ⟨c3, t3⟩
    · rw [List.cons_append, List.nil_append] at h
      injection h with hc _
      apply absurd _ h1
      rw [hc]
      exact List.mem_cons_self _ _
    · rw [List.cons_append, List.cons_append] at h
      injection h with hc hrest
      have h1' : ';' ∉ t1 := fun hh => h1 (List.mem_cons_of_mem _ hh)
      have h3' : ';' ∉ t3 := fun hh => h3 (List.mem_cons_of_mem _ hh)
      obtain ⟨ha, hb⟩ := ih t3 l2 l4 h1' h3' hrest
      exact ⟨by rw [hc, ha], hb⟩

lemma pair_key_inj (a b c d : String)
    (ha : ';' ∉ a.data) (hc : ';' ∉ c.data)
    (h : a ++ ";" ++ b = c ++ ";" ++ d) : a = c ∧ b = d := by
  have hdata : a.data ++ ';' :: b.data = c.data ++ ';' :: d.data := by
    have hd := congrArg String.data h
    rw [String.data_append, String.data_append, String.data_append,
      String.data_append] at hd
    simpa using hd
  obtain ⟨h1, h2⟩ := append_cons_sep_inj a.data c.data b.data d.data ha hc hdata
  exact ⟨String.ext h1, String.ext h2⟩

lemma nested_foldl_eq_visits (shapes : List PolyEntry) (outer : List PolyEntry) :
    ∀ acc : List String × List (String × String),
    outer.foldl
      (fun acc data => (idxCandidates shapes data.polygon).foldl (overlapStep data) acc)
      acc
    = (outer.flatMap
        (fun d => (idxCandidates shapes d.polygon).map (fun e => (d, e)))).foldl
        overlapVisit acc := by
  induction outer with
  | nil => intro acc; rfl
  | cons d t ih =>
    intro acc
    rw [List.foldl_cons, List.flatMap_cons, List.foldl_append, List.foldl_map, ih]
    rfl

lemma test_overlapping_eq_visits (records : List Record) :
    test_overlappingPolygons records
      = (visitsOf (buildPolygonShapes records)).foldl overlapVisit ([], []) := by
  unfold test_overlappingPolygons visitsOf
  exact nested_foldl_eq_visits (buildPolygonShapes records)
    (buildPolygonShapes records) ([], [])

lemma overlapVisit_cases (acc : List String × List (String × String))
    (v : PolyEntry × PolyEntry) :
    (overlapVisit acc v).1 = acc.1
    ∨ ((overlapVisit acc v).1 = acc.1 ++ [visitEmit v]
       ∧ overlapGuard v.1 v.2 = true
       ∧ overlapsE v.2.polygon v.1.polygon = Except.ok true
       ∧ visitCheck v ∉ acc.1) := by
  obtain ⟨data, e⟩ := v
  unfold overlapVisit overlapStep visitEmit visitCheck
  dsimp only
  by_cases hg : overlapGuard data e = true
  · rw [if_pos hg]
    rcases hov : overlapsE e.polygon data.polygon with msg | b
    · left
      rfl
    · cases b
      · left
        rfl
      · by_cases hd : (entryKey data ++ ";" ++ entryKey e) ∈ acc.1
        · rw [if_pos hd]
          left
          rfl
        · rw [if_neg hd]
          right
          exact ⟨rfl, hg, rfl, hd⟩
  · rw [if_neg hg]
    left
    rfl

lemma overlapVisit_of_emit (acc : List String × List (String × String))
    (v : PolyEntry × PolyEntry)
    (hg : overlapGuard v.1 v.2 = true)
    (hov : overlapsE v.2.polygon v.1.polygon = Except.ok true) :
    (overlapVisit acc v).1 =
      if visitCheck v ∈ acc.1 then acc.1 else acc.1 ++ [visitEmit v] := by
  obtain ⟨data, e⟩ := v
  unfold overlapVisit overlapStep visitEmit visitCheck
  dsimp only
  simp only at hg hov
  rw [if_pos hg, hov]
  by_cases hd : (entryKey data ++ ";" ++ entryKey e) ∈ acc.1
  · rw [if_pos hd, if_pos hd]
  · rw [if_neg hd, if_neg hd]

lemma res_mono (L : List (PolyEntry × PolyEntry)) :
    ∀ (acc : List String × List (String × String)) (s : String),
    s ∈ acc.1 → s ∈ (L.foldl overlapVisit acc).1 := by
  induction L with
  | nil =>
    intro acc s hs
    exact hs
  | cons v t ih =>
    intro acc s hs
    rw [List.foldl_cons]
    apply ih
    rcases overlapVisit_cases acc v with h | ⟨h, _, _, _⟩
    · rw [h]
      exact hs
    · rw [h]
      exact List.mem_append_left _ hs

lemma res_sound (L : List (PolyEntry × PolyEntry)) :
    ∀ (acc : List String × List (String × String)) (s : String),
    s ∈ (L.foldl overlapVisit acc).1 →
    s ∈ acc.1
    ∨ ∃ v ∈ L, overlapGuard v.1 v.2 = true
        ∧ overlapsE v.2.polygon v.1.polygon = Except.ok true
        ∧ s = visitEmit v := by
  induction L with
  | nil =>
    intro acc s hs
    exact Or.inl hs
  | cons v t ih =>
    intro acc s hs
    rw [List.foldl_cons] at hs
    rcases ih (overlapVisit acc v) s hs with hacc | ⟨w, hw, hg, hov, hsw⟩
    · rcases overlapVisit_cases acc v with h | ⟨h, hg, hov, _⟩
      · rw [h] at hacc
        exact Or.inl hacc
      · rw [h] at hacc
        rcases List.mem_append.mp hacc with hmem | hnew
        · exact Or.inl hmem
        · exact Or.inr ⟨v, by simp, hg, hov, by simpa using hnew⟩
    · exact Or.inr ⟨w, List.mem_cons_of_mem _ hw, hg, hov, hsw⟩

lemma res_complete (L : List (PolyEntry × PolyEntry)) :
    ∀ (acc : List String × List (String × String))
      (v : PolyEntry × PolyEntry), v ∈ L →
    overlapGuard v.1 v.2 = true →
    overlapsE v.2.polygon v.1.polygon = Except.ok true →
    visitEmit v ∈ (L.foldl overlapVisit acc).1
    ∨ visitCheck v ∈ (L.foldl overlapVisit acc).1 := by
  induction L with
  | nil =>
    intro acc v hv
    simp at hv
  | cons w t ih =>
    intro acc v hv hg hov
    rw [List.foldl_cons]
    rcases List.mem_cons.mp hv with hvw | hvt
    · rw [← hvw]
      by_cases hd : visitCheck v ∈ acc.1
      · right
        apply res_mono
        rw [overlapVisit_of_emit acc v hg hov, if_pos hd]
        exact hd
      · left
        apply res_mono
        rw [overlapVisit_of_emit acc v hg hov, if_neg hd]
        exact List.mem_append_right _ (by simp)
    · exact ih (overlapVisit acc w) v hvt hg hov

lemma visitCheck_eq_emit_swap (X Y : PolyEntry) :
    visitCheck (X, Y) = visitEmit (Y, X) := rfl

lemma mem_visitsOf (shapes : List PolyEntry) (A B : PolyEntry)
    (hA : A ∈ shapes) (hB : B ∈ shapes)
    (hbox : bboxIntersects B.polygon A.polygon = true) :
    (A, B) ∈ visitsOf shapes := by
  unfold visitsOf
  refine List.mem_flatMap.mpr ⟨A, hA, ?_⟩
  refine List.mem_map.mpr ⟨B, ?_, rfl⟩
  unfold idxCandidates
  exact List.mem_filter.mpr ⟨hB, hbox⟩

lemma visitsOf_sub (shapes : List PolyEntry) (v : PolyEntry × PolyEntry)
    (hv : v ∈ visitsOf shapes) : v.1 ∈ shapes ∧ v.2 ∈ shapes := by
  unfold visitsOf at hv
  rcases List.mem_flatMap.mp hv with ⟨d, hd, hmap⟩
  rcases List.mem_map.mp hmap with ⟨e, he, hev⟩
  have he' : e ∈ shapes := List.mem_of_mem_filter he
  rw [← hev]
  exact ⟨hd, he'⟩

lemma flatMap_fst_mem (shapes : List PolyEntry) (t : List PolyEntry)
    (v : PolyEntry × PolyEntry)
    (hv : v ∈ t.flatMap
      (fun d => (idxCandidates shapes d.polygon).map (fun e => (d, e)))) :
    v.1 ∈ t := by
  rcases List.mem_flatMap.mp hv with ⟨d, hd, hmap⟩
  rcases List.mem_map.mp hmap with ⟨e, _, hev⟩
  rw [← hev]
  exact hd

lemma count_pair_map (d X Y : PolyEntry) (c : List PolyEntry) :
    (c.map (fun e => (d, e))).count (X, Y)
      = if d = X then c.count Y else 0 := by
  induction c with
  | nil => simp
  | cons e r ih =>
    rw [List.map_cons, List.count_cons, ih]
    by_cases hd : d = X
    · rw [if_pos hd, if_pos hd, List.count_cons]
      by_cases he : e = Y
      · have h1 : ((d, e) == (X, Y)) = true := by
          rw [beq_iff_eq, hd, he]
        have h2 : (e == Y) = true := by rw [beq_iff_eq]; exact he
        rw [h1, h2]
      · have h1 : ((d, e) == (X, Y)) = false := by
          rw [beq_eq_false_iff_ne]
          intro hc
          exact he (congrArg Prod.snd hc)
        have h2 : (e == Y) = false := by
          rw [beq_eq_false_iff_ne]
          exact he
        rw [h1, h2]
    · rw [if_neg hd, if_neg hd]
      have h1 : ((d, e) == (X, Y)) = false := by
        rw [beq_eq_false_iff_ne]
        intro hc
        exact hd (congrArg Prod.fst hc)
      rw [h1]
      simp

lemma count_visitsOf_le_one (shapes : List PolyEntry) (hnd : shapes.Nodup)
    (X Y : PolyEntry) : (visitsOf shapes).count (X, Y) ≤ 1 := by
  unfold visitsOf
  have haux : ∀ t : List PolyEntry, t.Nodup →
      (t.flatMap
        (fun d => (idxCandidates shapes d.polygon).map (fun e => (d, e)))).count
          (X, Y) ≤ 1 := by
    intro t
    induction t with
    | nil =>
      intro _
      simp
    | cons d r ih =>
      intro hndr
      rcases List.nodup_cons.mp hndr with ⟨hdr, hr⟩
      rw [List.flatMap_cons, List.count_append]
      by_cases hd : d = X
      · have hrest :
            (r.flatMap
              (fun d => (idxCandidates shapes d.polygon).map (fun e => (d, e)))).count
                (X, Y) = 0 := by
          refine List.count_eq_zero.mpr ?_
          intro hmem
          exact hdr (hd ▸ flatMap_fst_mem shapes r (X, Y) hmem)
        rw [hrest, count_pair_map, if_pos hd]
        have h1 : (idxCandidates shapes d.polygon).count Y ≤ shapes.count Y :=
          (List.filter_sublist shapes).count_le Y
        have h2 : shapes.count Y ≤ 1 :=
          List.nodup_iff_count_le_one.mp hnd Y
        omega
      · rw [count_pair_map, if_neg hd]
        have := ih hr
        omega
  exact haux shapes hnd

lemma res_once_aux (A B : PolyEntry)
    (hgAB : overlapGuard A B = true) (hgBA : overlapGuard B A = true)
    (hovAB : overlapsE B.polygon A.polygon = Except.ok true)
    (hovBA : overlapsE A.polygon B.polygon = Except.ok true)
    (hd12 : visitEmit (A, B) ≠ visitEmit (B, A)) :
    ∀ (L : List (PolyEntry × PolyEntry))
      (acc : List String × List (String × String)),
    (∀ v ∈ L, (visitEmit v = visitEmit (A, B) → v = (A, B))
             ∧ (visitEmit v = visitEmit (B, A) → v = (B, A))) →
    L.count (A, B) ≤ 1 → L.count (B, A) ≤ 1 →
    (visitEmit (A, B) ∈ acc.1 → (A, B) ∉ L) →
    (visitEmit (B, A) ∈ acc.1 → (B, A) ∉ L) →
    acc.1.count (visitEmit (A, B)) ≤ 1 →
    acc.1.count (visitEmit (B, A)) ≤ 1 →
    ¬(visitEmit (A, B) ∈ acc.1 ∧ visitEmit (B, A) ∈ acc.1) →
    (L.foldl overlapVisit acc).1.count (visitEmit (A, B))
      + (L.foldl overlapVisit acc).1.count (visitEmit (B, A))
    = (if visitEmit (A, B) ∈ acc.1 ∨ visitEmit (B, A) ∈ acc.1 then 1
       else if (A, B) ∈ L ∨ (B, A) ∈ L then 1 else 0) := by
  intro L
  induction L with
  | nil =>
    intro acc _ _ _ _ _ hn1 hn2 hx
    simp only [List.foldl_nil, List.not_mem_nil, or_self, if_false]
    by_cases hm1 : visitEmit (A, B) ∈ acc.1
    · have hc1 : acc.1.count (visitEmit (A, B)) = 1 := by
        have := List.count_pos_iff.mpr hm1
        omega
      have hm2 : visitEmit (B, A) ∉ acc.1 := fun h => hx ⟨hm1, h⟩
      have hc2 : acc.1.count (visitEmit (B, A)) = 0 :=
        List.count_eq_zero.mpr hm2
      rw [if_pos (Or.inl hm1)]
      omega
    · by_cases hm2 : visitEmit (B, A) ∈ acc.1
      · have hc2 : acc.1.count (visitEmit (B, A)) = 1 := by
          have := List.count_pos_iff.mpr hm2
          omega
        have hc1 : acc.1.count (visitEmit (A, B)) = 0 :=
          List.count_eq_zero.mpr hm1
        rw [if_pos (Or.inr hm2)]
        omega
      · rw [if_neg (by rintro (h | h) <;> [exact hm1 h; exact hm2 h])]
        rw [List.count_eq_zero.mpr hm1, List.count_eq_zero.mpr hm2]
  | cons v t ih =>
    intro acc huniq hcAB hcBA hiAB hiBA hn1 hn2 hx
    rw [List.foldl_cons]
    by_cases hv1 : v = (A, B)
    · subst hv1
      have hd1 : visitEmit (A, B) ∉ acc.1 := by
        intro h
        exact hiAB h (List.mem_cons_self _ _)
      have htAB0 : t.count (A, B) = 0 := by
        have hcc := List.count_cons (A, B) (A, B) t
        simp only [beq_self_eq_true, if_true] at hcc
        omega
      have hcBA' : t.count (B, A) ≤ 1 :=
        le_trans ((List.sublist_cons_self _ t).count_le _) hcBA
      have hres := overlapVisit_of_emit acc (A, B) hgAB hovAB
      rw [visitCheck_eq_emit_swap] at hres
      by_cases hm2 : visitEmit (B, A) ∈ acc.1
      · rw [if_pos hm2] at hres
        have hfold := ih (overlapVisit acc (A, B))
          (fun w hw => huniq w (List.mem_cons_of_mem _ hw))
          (by omega) hcBA'
          (by rw [hres]; intro _; exact List.count_eq_zero.mp htAB0)
          (by rw [hres]
              intro h hmem
              exact hiBA h (List.mem_cons_of_mem _ hmem))
          (by rw [hres]; exact hn1)
          (by rw [hres]; exact hn2)
          (by rw [hres]; exact hx)
        rw [hfold, hres, if_pos (Or.inr hm2), if_pos (Or.inr hm2)]
      · rw [if_neg hm2] at hres
        have hc1zero : acc.1.count (visitEmit (A, B)) = 0 :=
          List.count_eq_zero.mpr hd1
        have hm2app : visitEmit (B, A) ∉ acc.1 ++ [visitEmit (A, B)] := by
          intro h
          rcases List.mem_append.mp h with h | h
          · exact hm2 h
          · exact hd12 (List.mem_singleton.mp h).symm
        have hfold := ih (overlapVisit acc (A, B))
          (fun w hw => huniq w (List.mem_cons_of_mem _ hw))
          (by omega) hcBA'
          (by rw [hres]; intro _; exact List.count_eq_zero.mp htAB0)
          (by rw [hres]; intro h; exact absurd h hm2app)
          (by rw [hres, List.count_append, hc1zero, List.count_singleton]
              simp)
          (by rw [hres, List.count_append, List.count_singleton]
              have hne : ((visitEmit (A, B) == visitEmit (B, A)) : Bool) = false := by
                rw [beq_eq_false_iff_ne]
                exact hd12
              rw [hne]
              simpa using hn2)
          (by rw [hres]
              rintro ⟨_, h2⟩
              exact hm2app h2)
        rw [hfold, hres]
        rw [if_pos (Or.inl (List.mem_append_right _ (List.mem_singleton.mpr rfl)))]
        rw [if_neg (by rintro (h | h) <;> [exact hd1 h; exact hm2 h]),
          if_pos (Or.inl (List.mem_cons_self _ _))]
    · by_cases hv2 : v = (B, A)
      · subst hv2
        have hd2 : visitEmit (B, A) ∉ acc.1 := by
          intro h
          exact hiBA h (List.mem_cons_self _ _)
        have htBA0 : t.count (B, A) = 0 := by
          have hcc := List.count_cons (B, A) (B, A) t
          simp only [beq_self_eq_true, if_true] at hcc
          omega
        have hcAB' : t.count (A, B) ≤ 1 :=
          le_trans ((List.sublist_cons_self _ t).count_le _) hcAB
        have hres := overlapVisit_of_emit acc (B, A) hgBA hovBA
        rw [visitCheck_eq_emit_swap] at hres
        by_cases hm1 : visitEmit (A, B) ∈ acc.1
        · rw [if_pos hm1] at hres
          have hfold := ih (overlapVisit acc (B, A))
            (fun w hw => huniq w (List.mem_cons_of_mem _ hw))
            hcAB' (by omega)
            (by rw [hres]
                intro h hmem
                exact hiAB h (List.mem_cons_of_mem _ hmem))
            (by rw [hres]; intro _; exact List.count_eq_zero.mp htBA0)
            (by rw [hres]; exact hn1)
            (by rw [hres]; exact hn2)
            (by rw [hres]; exact hx)
          rw [hfold, hres, if_pos (Or.inl hm1), if_pos (Or.inl hm1)]
        · rw [if_neg hm1] at hres
          have hc2zero : acc.1.count (visitEmit (B, A)) = 0 :=
            List.count_eq_zero.mpr hd2
          have hm1app : visitEmit (A, B) ∉ acc.1 ++ [visitEmit (B, A)] := by
            intro h
            rcases List.mem_append.mp h with h | h
            · exact hm1 h
            · exact hd12 (List.mem_singleton.mp h)
          have hfold := ih (overlapVisit acc (B, A))
            (fun w hw => huniq w (List.mem_cons_of_mem _ hw))
            hcAB' (by omega)
            (by rw [hres]; intro h; exact absurd h hm1app)
            (by rw [hres]; intro _; exact List.count_eq_zero.mp htBA0)
            (by rw [hres, List.count_append, List.count_singleton]
                have hne : ((visitEmit (B, A) == visitEmit (A, B)) : Bool) = false := by
                  rw [beq_eq_false_iff_ne]
                  exact fun h => hd12 h.symm
                rw [hne]
                simpa using hn1)
            (by rw [hres, List.count_append, hc2zero, List.count_singleton]
                simp)
            (by rw [hres]
                rintro ⟨h1, _⟩
                exact hm1app h1)
          rw [hfold, hres]
          rw [if_pos (Or.inr (List.mem_append_right _ (List.mem_singleton.mpr rfl)))]
          rw [if_neg (by rintro (h | h) <;> [exact hm1 h; exact hd2 h]),
            if_pos (Or.inr (List.mem_cons_self _ _))]
      · -- an unrelated visit: its pair string is neither direction of (A, B)
        have hvAB : visitEmit v ≠ visitEmit (A, B) := by
          intro h
          exact hv1 ((huniq v (List.mem_cons_self v t)).1 h)
        have hvBA : visitEmit v ≠ visitEmit (B, A) := by
          intro h
          exact hv2 ((huniq v (List.mem_cons_self v t)).2 h)
        have hstate :
            ((overlapVisit acc v).1.count (visitEmit (A, B))
              = acc.1.count (visitEmit (A, B)))
            ∧ ((overlapVisit acc v).1.count (visitEmit (B, A))
              = acc.1.count (visitEmit (B, A)))
            ∧ ((visitEmit (A, B) ∈ (overlapVisit acc v).1)
              ↔ visitEmit (A, B) ∈ acc.1)
            ∧ ((visitEmit (B, A) ∈ (overlapVisit acc v).1)
              ↔ visitEmit (B, A) ∈ acc.1) := by
          rcases overlapVisit_cases acc v with h | ⟨h, _, _, _⟩
          · rw [h]
            exact ⟨rfl, rfl, Iff.rfl, Iff.rfl⟩
          · rw [h]
            have hz1 : List.count (visitEmit (A, B)) [visitEmit v] = 0 := by
              rw [List.count_singleton]
              have hb : ((visitEmit v == visitEmit (A, B)) : Bool) = false := by
                rw [beq_eq_false_iff_ne]
                exact hvAB
              rw [hb]
              simp
            have hz2 : List.count (visitEmit (B, A)) [visitEmit v] = 0 := by
              rw [List.count_singleton]
              have hb : ((visitEmit v == visitEmit (B, A)) : Bool) = false := by
                rw [beq_eq_false_iff_ne]
                exact hvBA
              rw [hb]
              simp
            refine ⟨by rw [List.count_append, hz1]; omega, ?_, ?_, ?_⟩
            · rw [List.count_append, hz2]
              omega
            · constructor
              · intro hmem
                rcases List.mem_append.mp hmem with hh | hh
                · exact hh
                · exact absurd (List.mem_singleton.mp hh).symm hvAB
              · exact fun hh => List.mem_append_left _ hh
            · constructor
              · intro hmem
                rcases List.mem_append.mp hmem with hh | hh
                · exact hh
                · exact absurd (List.mem_singleton.mp hh).symm hvBA
              · exact fun hh => List.mem_append_left _ hh
        obtain ⟨hsc1, hsc2, hsm1, hsm2⟩ := hstate
        have htAB : t.count (A, B) ≤ 1 :=
          le_trans ((List.sublist_cons_self _ t).count_le _) hcAB
        have htBA : t.count (B, A) ≤ 1 :=
          le_trans ((List.sublist_cons_self _ t).count_le _) hcBA
        have hfold := ih (overlapVisit acc v)
          (fun w hw => huniq w (List.mem_cons_of_mem _ hw))
          htAB htBA
          (fun h hmem => hiAB (hsm1.mp h) (List.mem_cons_of_mem _ hmem))
          (fun h hmem => hiBA (hsm2.mp h) (List.mem_cons_of_mem _ hmem))
          (by rw [hsc1]; exact hn1)
          (by rw [hsc2]; exact hn2)
          (fun ⟨h1, h2⟩ => hx ⟨hsm1.mp h1, hsm2.mp h2⟩)
        rw [hfold]
        by_cases hm : visitEmit (A, B) ∈ acc.1 ∨ visitEmit (B, A) ∈ acc.1
        · rw [if_pos (hm.imp hsm1.mpr hsm2.mpr), if_pos hm]
        · rw [if_neg (fun hcon => hm (hcon.imp hsm1.mp hsm2.mp)), if_neg hm]
          by_cases hmt : (A, B) ∈ t ∨ (B, A) ∈ t
          · rw [if_pos hmt,
              if_pos (hmt.imp (List.mem_cons_of_mem _) (List.mem_cons_of_mem _))]
          · rw [if_neg hmt, if_neg (fun hcon => hmt (hcon.imp
              (fun h => (List.mem_cons.mp h).resolve_left (fun he => hv1 he.symm))
              (fun h => (List.mem_cons.mp h).resolve_left (fun he => hv2 he.symm))))]

lemma interiors_comm (a b : Rect) :
    interiorsIntersect a b = interiorsIntersect b a := by
  unfold interiorsIntersect
  rw [max_comm a.x0 b.x0, min_comm a.x1 b.x1, max_comm a.y0 b.y0,
    min_comm a.y1 b.y1]

lemma bbox_of_interiors (a b : Rect) (h : interiorsIntersect a b = true) :
    bboxIntersects a b = true := by
  unfold interiorsIntersect at h
  rw [Bool.and_eq_true, decide_eq_true_eq, decide_eq_true_eq] at h
  obtain ⟨hx, hy⟩ := h
  rcases max_lt_iff.mp hx with ⟨hx1, hx2⟩
  rcases lt_min_iff.mp hx1 with ⟨_, hx14⟩
  rcases lt_min_iff.mp hx2 with ⟨hx23, _⟩
  rcases max_lt_iff.mp hy with ⟨hy1, hy2⟩
  rcases lt_min_iff.mp hy1 with ⟨_, hy14⟩
  rcases lt_min_iff.mp hy2 with ⟨hy23, _⟩
  unfold bboxIntersects
  rw [Bool.and_eq_true, Bool.and_eq_true, Bool.and_eq_true]
  refine ⟨⟨⟨?_, ?_⟩, ?_⟩, ?_⟩ <;> rw [decide_eq_true_eq] <;> omega

lemma overlapGuard_symm (X Y : PolyEntry) (h : overlapGuard X Y = true) :
    overlapGuard Y X = true := by
  unfold overlapGuard at *
  simp only [Bool.and_eq_true, beq_iff_eq, Bool.not_eq_true',
    beq_eq_false_iff_ne] at *
  exact ⟨⟨h.1.1.symm, h.1.2.symm⟩, fun he => h.2 he.symm⟩

lemma overlapsE_ok_true_interiors (X Y : Rect)
    (h : overlapsE X Y = Except.ok true) :
    interiorsIntersect X Y = true ∧ X.is_valid = true ∧ Y.is_valid = true := by
  unfold overlapsE at h
  by_cases hv : (X.is_valid && Y.is_valid) = true
  · rw [if_pos hv] at h
    have hv' := hv
    simp only [Bool.and_eq_true] at hv'
    exact ⟨Except.ok.injEq _ _ ▸ h, hv'.1, hv'.2⟩
  · rw [if_neg hv] at h
    exact absurd h (by simp)

lemma overlapsE_symm_ok (X Y : Rect) (h : overlapsE X Y = Except.ok true) :
    overlapsE Y X = Except.ok true := by
  obtain ⟨hint, hv1, hv2⟩ := overlapsE_ok_true_interiors X Y h
  unfold overlapsE
  rw [if_pos (by rw [hv2, hv1]; rfl), interiors_comm, hint]

lemma guard_entry_ne (X Y : PolyEntry) (h : overlapGuard X Y = true) :
    X ≠ Y := by
  intro he
  unfold overlapGuard at h
  simp only [Bool.and_eq_true, beq_iff_eq, Bool.not_eq_true',
    beq_eq_false_iff_ne] at h
  exact h.2 (by rw [he])

/-- **C2.** For distinct polygons `A`, `B` of equal class and `map_code`
whose keys identify their index entries, the offline overlap check reports
the pair (in one direction or the other) whenever their interiors strictly
intersect, and never reports it when the interiors do not intersect — in
particular two polygons that only touch along a boundary edge are not
reported.  The geometry predicate is modelled from the spec: boundary
contact does not count as overlap, strict interior intersection does. -/
theorem c2_strict_interior_reported_touch_not (records : List Record)
    (A B : PolyEntry)
    (hinj : ∀ e1 ∈ buildPolygonShapes records, ∀ e2 ∈ buildPolygonShapes records,
        entryKey e1 = entryKey e2 → e1 = e2)
    (hA : A ∈ buildPolygonShapes records) (hB : B ∈ buildPolygonShapes records)
    (hmap : A.map_code = B.map_code) (hcls : A.fclass = B.fclass)
    (hne : A.polygon ≠ B.polygon)
    (hva : A.polygon.is_valid = true) (hvb : B.polygon.is_valid = true) :
    (interiorsIntersect A.polygon B.polygon = true →
       (entryKey B ++ ";" ++ entryKey A) ∈ (test_overlappingPolygons records).1
       ∨ (entryKey A ++ ";" ++ entryKey B) ∈ (test_overlappingPolygons records).1)
    ∧ (interiorsIntersect A.polygon B.polygon = false →
       (entryKey B ++ ";" ++ entryKey A) ∉ (test_overlappingPolygons records).1
       ∧ (entryKey A ++ ";" ++ entryKey B) ∉ (test_overlappingPolygons records).1) := by
  have hg : overlapGuard A B = true := by
    unfold overlapGuard
    simp only [Bool.and_eq_true, beq_iff_eq, Bool.not_eq_true',
      beq_eq_false_iff_ne]
    exact ⟨⟨hmap.symm, hcls.symm⟩, fun h => hne h.symm⟩
  constructor
  · intro hint
    have hov : overlapsE B.polygon A.polygon = Except.ok true := by
      unfold overlapsE
      rw [if_pos (by rw [hvb, hva]; rfl), interiors_comm, hint]
    have hbox : bboxIntersects B.polygon A.polygon = true :=
      bbox_of_interiors B.polygon A.polygon (by rw [interiors_comm]; exact hint)
    have hmem := mem_visitsOf (buildPolygonShapes records) A B hA hB hbox
    have hres := res_complete (visitsOf (buildPolygonShapes records)) ([], [])
      (A, B) hmem hg hov
    rw [test_overlapping_eq_visits]
    exact hres
  · intro hint
    constructor
    · intro hmem
      rw [test_overlapping_eq_visits] at hmem
      rcases res_sound (visitsOf (buildPolygonShapes records)) ([], []) _ hmem
        with hacc | ⟨v, hv, _, hov, hs⟩
      · simp at hacc
      · obtain ⟨hv1, hv2⟩ := visitsOf_sub (buildPolygonShapes records) v hv
        obtain ⟨hk2, hk1⟩ := pair_key_inj (entryKey B) (entryKey A)
          (entryKey v.2) (entryKey v.1)
          (entryKey_no_semicolon B) (entryKey_no_semicolon v.2) hs
        have he2 : v.2 = B := (hinj v.2 hv2 B hB hk2.symm)
        have he1 : v.1 = A := (hinj v.1 hv1 A hA hk1.symm)
        rw [he1, he2] at hov
        obtain ⟨hint2, _, _⟩ := overlapsE_ok_true_interiors _ _ hov
        rw [interiors_comm] at hint2
        rw [hint2] at hint
        exact Bool.true_eq_false ▸ hint
    · intro hmem
      rw [test_overlapping_eq_visits] at hmem
      rcases res_sound (visitsOf (buildPolygonShapes records)) ([], []) _ hmem
        with hacc | ⟨v, hv, _, hov, hs⟩
      · simp at hacc
      · obtain ⟨hv1, hv2⟩ := visitsOf_sub (buildPolygonShapes records) v hv
        obtain ⟨hk2, hk1⟩ := pair_key_inj (entryKey A) (entryKey B)
          (entryKey v.2) (entryKey v.1)
          (entryKey_no_semicolon A) (entryKey_no_semicolon v.2) hs
        have he2 : v.2 = A := (hinj v.2 hv2 A hA hk2.symm)
        have he1 : v.1 = B := (hinj v.1 hv1 B hB hk1.symm)
        rw [he1, he2] at hov
        obtain ⟨hint2, _, _⟩ := overlapsE_ok_true_interiors _ _ hov
        rw [hint2] at hint
        exact Bool.true_eq_false ▸ hint

/-- **C2 (witness).** The characterization applied to the concrete
overlapping squares `rectA`/`rectB` of equal class and map code: one of the
two pair directions is reported. -/
theorem c2_witness :
    ("2_0;1_0" ∈ (test_overlappingPolygons [recA, recB]).1)
    ∨ ("1_0;2_0" ∈ (test_overlappingPolygons [recA, recB]).1) :=
  (c2_strict_interior_reported_touch_not [recA, recB] entA entB
    (by decide) (by decide) (by decide) rfl rfl (by decide) rfl rfl).1 (by decide)

/-- **C3 (amended).** For two distinct indexed polygons of equal class and
`map_code` with strictly intersecting interiors — under distinct index
entries (`Nodup`) and injective composite keys — the offline overlap check
emits the unordered pair exactly once: the two possible direction strings
occur exactly once in total in the violation list.  The emitted direction,
however, is fixed by iteration order (the indexed candidate's key first at
the pair's first visit), not by a lexicographic canonicalization; see the
counterexample. -/
theorem c3_pair_emitted_exactly_once (records : List Record)
    (A B : PolyEntry)
    (hnd : (buildPolygonShapes records).Nodup)
    (hinj : ∀ e1 ∈ buildPolygonShapes records, ∀ e2 ∈ buildPolygonShapes records,
        entryKey e1 = entryKey e2 → e1 = e2)
    (hA : A ∈ buildPolygonShapes records) (hB : B ∈ buildPolygonShapes records)
    (hmap : A.map_code = B.map_code) (hcls : A.fclass = B.fclass)
    (hne : A.polygon ≠ B.polygon)
    (hva : A.polygon.is_valid = true) (hvb : B.polygon.is_valid = true)
    (hint : interiorsIntersect A.polygon B.polygon = true) :
    (test_overlappingPolygons records).1.count (entryKey B ++ ";" ++ entryKey A)
      + (test_overlappingPolygons records).1.count (entryKey A ++ ";" ++ entryKey B)
    = 1 := by
  have hg : overlapGuard A B = true := by
    unfold overlapGuard
    simp only [Bool.and_eq_true, beq_iff_eq, Bool.not_eq_true',
      beq_eq_false_iff_ne]
    exact ⟨⟨hmap.symm, hcls.symm⟩, fun h => hne h.symm⟩
  have hgBA : overlapGuard B A = true := overlapGuard_symm A B hg
  have hov : overlapsE B.polygon A.polygon = Except.ok true := by
    unfold overlapsE
    rw [if_pos (by rw [hvb, hva]; rfl), interiors_comm, hint]
  have hovBA : overlapsE A.polygon B.polygon = Except.ok true :=
    overlapsE_symm_ok B.polygon A.polygon hov
  have hABne : A ≠ B := fun he => hne (by rw [he])
  have hd12 : visitEmit (A, B) ≠ visitEmit (B, A) := by
    intro he
    obtain ⟨hk1, _⟩ := pair_key_inj (entryKey B) (entryKey A)
      (entryKey A) (entryKey B)
      (entryKey_no_semicolon B) (entryKey_no_semicolon A) he
    exact hABne (hinj B hB A hA hk1).symm
  have huniq : ∀ v ∈ visitsOf (buildPolygonShapes records),
      (visitEmit v = visitEmit (A, B) → v = (A, B))
      ∧ (visitEmit v = visitEmit (B, A) → v = (B, A)) := by
    intro v hv
    obtain ⟨hv1, hv2⟩ := visitsOf_sub (buildPolygonShapes records) v hv
    constructor
    · intro he
      obtain ⟨hk2, hk1⟩ := pair_key_inj (entryKey v.2) (entryKey v.1)
        (entryKey B) (entryKey A)
        (entryKey_no_semicolon v.2) (entryKey_no_semicolon B) he
      obtain ⟨w1, w2⟩ := v
      simp only at hk1 hk2
      rw [hinj w2 hv2 B hB hk2, hinj w1 hv1 A hA hk1]
    · intro he
      obtain ⟨hk2, hk1⟩ := pair_key_inj (entryKey v.2) (entryKey v.1)
        (entryKey A) (entryKey B)
        (entryKey_no_semicolon v.2) (entryKey_no_semicolon A) he
      obtain ⟨w1, w2⟩ := v
      simp only at hk1 hk2
      rw [hinj w2 hv2 A hA hk2, hinj w1 hv1 B hB hk1]
  have hbox : bboxIntersects B.polygon A.polygon = true :=
    bbox_of_interiors B.polygon A.polygon (by rw [interiors_comm]; exact hint)
  have hmem := mem_visitsOf (buildPolygonShapes records) A B hA hB hbox
  have honce := res_once_aux A B hg hgBA hov hovBA hd12
    (visitsOf (buildPolygonShapes records)) ([], []) huniq
    (count_visitsOf_le_one (buildPolygonShapes records) hnd A B)
    (count_visitsOf_le_one (buildPolygonShapes records) hnd B A)
    (fun h => absurd h (List.not_mem_nil _))
    (fun h => absurd h (List.not_mem_nil _))
    (by simp) (by simp)
    (fun hc => absurd hc.1 (List.not_mem_nil _))
  rw [test_overlapping_eq_visits]
  show List.count (visitEmit (A, B))
      ((visitsOf (buildPolygonShapes records)).foldl overlapVisit ([], [])).1
    + List.count (visitEmit (B, A))
      ((visitsOf (buildPolygonShapes records)).foldl overlapVisit ([], [])).1
    = 1
  rw [honce]
  rw [if_neg (by rintro (h | h) <;> exact List.not_mem_nil _ h),
    if_pos (Or.inl hmem)]

/-- **C3 (witness).** Exactly-once on the concrete overlapping pair: the
two direction strings occur once in total. -/
theorem c3_witness :
    (test_overlappingPolygons [recA, recB]).1.count "2_0;1_0"
      + (test_overlappingPolygons [recA, recB]).1.count "1_0;2_0" = 1 :=
  c3_pair_emitted_exactly_once [recA, recB] entA entB (by decide) (by decide)
    (by decide) (by decide) rfl rfl (by decide) rfl rfl (by decide)

/-- **C3 (counterexample).** The emitted direction is not canonical: with
the same two overlapping features indexed in the two possible orders, the
check emits `2_0;1_0` in one run and `1_0;2_0` in the other — so the
direction depends on which polygon was indexed first, and the first run
emits the lexicographically *larger* key first (`"1_0" < "2_0"`). -/
theorem c3_counterexample_direction_not_canonical :
    (test_overlappingPolygons [recA, recB]).1 = ["2_0;1_0"]
    ∧ (test_overlappingPolygons [recB, recA]).1 = ["1_0;2_0"]
    ∧ ("1_0" : String) < "2_0" :=
  ⟨rfl, rfl, by
    rw [String.lt_iff_toList_lt]
    show (['1', '_', '0'] : List Char) < ['2', '_', '0']
    decide⟩

end GeoMaps
